import Mathlib

/-!
Shallow embedding of `export_livestock_to_csv.py` (FS25_ExportLivestockInfo).

Python strings are Lean `String`s; Python dicts that the script builds
(country maps, row dicts) are association lists in insertion order.
Python floats are modelled as exact rationals extended with the two
infinities and NaN (`PyFloat`): arithmetic on finite values is exact
(no binary rounding or overflow is modelled), while parsing, truncation,
`round` and `"%.2f"` formatting follow the Python semantics on that
model, including the fact that `round`/`int` raise on non-finite values.
A Python function that can raise to its caller is embedded with an
`Option` result, `none` marking the escaping exception.
-/

namespace Livestock

/-- Characters Python treats as whitespace in `str.strip` and in number parsing. -/
def pyIsSpace (c : Char) : Bool :=
  c == ' ' || c == Char.ofNat 9 || c == Char.ofNat 10 ||
  c == Char.ofNat 13 || c == Char.ofNat 11 || c == Char.ofNat 12

/-- Python `str.strip()` on a character list. -/
def stripChars (cs : List Char) : List Char :=
  ((cs.dropWhile pyIsSpace).reverse.dropWhile pyIsSpace).reverse

/-- Python `str.strip()`. -/
def pyStrip (s : String) : String := String.mk (stripChars s.data)

/-- ASCII lower-casing, modelling Python `str.lower` on the ASCII data used here. -/
def lowChar (c : Char) : Char :=
  if 'A' ≤ c && c ≤ 'Z' then Char.ofNat (c.toNat + 32) else c

/-- Python `str.lower()`. -/
def pyLower (s : String) : String := String.mk (s.data.map lowChar)

/-- Numeric value of a decimal digit character. -/
def digitVal (c : Char) : Nat := c.toNat - 48

/-- Value of a big-endian list of decimal digits. -/
def digitsVal (ds : List Nat) : Nat := ds.foldl (fun a d => a * 10 + d) 0

/-- Big-endian decimal digits of `n` (fuel-driven; fuel `n` always suffices). -/
def natDigitsAux : Nat → Nat → List Nat
  | 0, n => [n % 10]
  | fuel + 1, n => if n < 10 then [n] else natDigitsAux fuel (n / 10) ++ [n % 10]

/-- Python `str(n)` for a non-negative integer. -/
def natToStr (n : Nat) : String :=
  String.mk ((natDigitsAux n n).map (fun d => Char.ofNat (48 + d)))

/-- Python `str(i)` for an integer. -/
def intToStr (i : Int) : String :=
  if i < 0 then "-" ++ natToStr (-i).toNat else natToStr i.toNat

/-- Parse a string of decimal digits back to a number (used only in theorem
statements, to read counts back out of rows). -/
def strToNat (s : String) : Option Nat :=
  if !s.data.isEmpty && s.data.all Char.isDigit then
    some (digitsVal (s.data.map digitVal))
  else none

/-- Does `pat` occur as a contiguous sublist of `s`?  Models Python `pat in s`. -/
def containsSub (s pat : List Char) : Bool :=
  match s with
  | [] => pat.isEmpty
  | _ :: t => pat.isPrefixOf s || containsSub t pat

/-- Python substring containment `pat in s`. -/
def strContains (s pat : String) : Bool := containsSub s.data pat.data

/-- First-match lookup in an association list (Python dict lookup; the dicts
built by the script have unique keys). -/
def alookup (l : List (String × String)) (k : String) : Option String :=
  match l with
  | [] => none
  | (k2, v) :: t => if k2 = k then some v else alookup t k

/-- Row field read with empty default, modelling `row[k]` / `row.get(k, "")`
on rows that carry every declared column. -/
def rget (r : List (String × String)) (k : String) : String :=
  (alookup r k).getD ""

/-- Python `a or b` on strings (first operand if non-empty). -/
def pyOr (a b : String) : String := if a = "" then b else a

/-! ### Python float model -/

/-- An exact rational as an unnormalised numerator/denominator pair (the
denominator is positive for every value the embedding builds).  Unlike
Mathlib's `ℚ`, all operations are structurally recursive, so closed values
reduce inside the kernel and `decide` can evaluate them. -/
structure DecQ where
  num : Int
  den : Nat
deriving DecidableEq

/-- The rational `n / 1`. -/
def DecQ.ofInt (n : Int) : DecQ := ⟨n, 1⟩

/-- Exact addition (cross multiplication, no normalisation). -/
def DecQ.add (a b : DecQ) : DecQ :=
  ⟨a.num * b.den + b.num * a.den, a.den * b.den⟩

/-- A Python float: an exact rational, an infinity, or NaN.  Finite arithmetic
is modelled exactly (no binary rounding / overflow). -/
inductive PyFloat where
  | fin (q : DecQ)
  | pinf
  | ninf
  | nan
deriving DecidableEq

/-- Float addition with the IEEE special-value rules used by `sum`. -/
def pfAdd : PyFloat → PyFloat → PyFloat
  | .fin a, .fin b => .fin (a.add b)
  | .nan, _ => .nan
  | _, .nan => .nan
  | .pinf, .ninf => .nan
  | .ninf, .pinf => .nan
  | .pinf, _ => .pinf
  | _, .pinf => .pinf
  | .ninf, _ => .ninf
  | _, .ninf => .ninf

/-- `sum(arr)` over floats: left fold from `0`. -/
def pfSum (l : List PyFloat) : PyFloat := l.foldl pfAdd (.fin (DecQ.ofInt 0))

/-- Float division by a positive integer constant (`x / 12.0`, `x / len(arr)`;
never called with `0` by the script, where that case would raise). -/
def pfDivNat (x : PyFloat) (n : Nat) : PyFloat :=
  match x with
  | .fin q => if n = 0 then .nan else .fin ⟨q.num, q.den * n⟩
  | .pinf => .pinf
  | .ninf => .ninf
  | .nan => .nan

/-- Float multiplication by a positive integer constant (`m * 30`). -/
def pfMulNat (x : PyFloat) (n : Nat) : PyFloat :=
  match x with
  | .fin q => .fin ⟨q.num * n, q.den⟩
  | .pinf => if n = 0 then .nan else .pinf
  | .ninf => if n = 0 then .nan else .ninf
  | .nan => .nan

/-- Round-half-to-even of `q` (the rounding of Python `round`), via the
floored quotient and twice the remainder. -/
def rhe (q : DecQ) : Int :=
  let f : Int := Int.fdiv q.num q.den
  let rem : Int := q.num - f * q.den
  if 2 * rem < (q.den : Int) then f
  else if (q.den : Int) < 2 * rem then f + 1
  else if f % 2 = 0 then f else f + 1

/-- Python `round(x)`: `none` models the `OverflowError`/`ValueError` raised
on infinities and NaN. -/
def pyRound : PyFloat → Option Int
  | .fin q => some (rhe q)
  | _ => none

/-- Truncation toward zero. -/
def ratTrunc (q : DecQ) : Int :=
  if q.num < 0 then -((q.num.natAbs / q.den : Nat) : Int)
  else ((q.num.natAbs / q.den : Nat) : Int)

/-- Python `int(x)` on a float: truncation toward zero; raises (`none`) on
infinities and NaN. -/
def pyTruncToInt : PyFloat → Option Int
  | .fin q => some (ratTrunc q)
  | _ => none

/-! ### Python number parsing -/

/-- Split off an optional sign; `true` means negative. -/
def parseSign : List Char → Bool × List Char
  | '+' :: t => (false, t)
  | '-' :: t => (true, t)
  | cs => (false, cs)

/-- Exact value of a parsed decimal literal:
`±(digits of intpart ++ fracpart) · 10 ^ (exp − |fracpart|)`. -/
def decValue (neg : Bool) (base : Nat) (fracLen : Nat) (e : Int) : DecQ :=
  let shift : Int := e - fracLen
  let mag : DecQ :=
    if 0 ≤ shift then ⟨((base * 10 ^ shift.toNat : Nat) : Int), 1⟩
    else ⟨(base : Int), 10 ^ (-shift).toNat⟩
  if neg then ⟨-mag.num, mag.den⟩ else mag

/-- Parse the part of a float literal after the mantissa: an optional
exponent clause `(e|E)[±]digits`; returns the exponent. -/
def parseExp (cs : List Char) : Option Int :=
  match cs with
  | [] => some 0
  | e :: t =>
    if e == 'e' || e == 'E' then
      let (neg, t2) := parseSign t
      let ds := t2.takeWhile Char.isDigit
      let rest := t2.dropWhile Char.isDigit
      if ds.isEmpty || !rest.isEmpty then none
      else some (if neg then -(digitsVal (ds.map digitVal) : Int) else (digitsVal (ds.map digitVal) : Int))
    else none

/-- Python `float(s)`: strip whitespace, optional sign, then either one of the
special words `inf`/`infinity`/`nan` (case-insensitive) or a decimal literal
with optional fraction and exponent.  (Underscore digit separators are not
modelled; the decimal value is kept exact rather than rounded to binary.) -/
def pyFloatParse (s : String) : Option PyFloat :=
  let cs := stripChars s.data
  let (neg, cs1) := parseSign cs
  let low := cs1.map lowChar
  if low = "inf".data || low = "infinity".data then
    some (if neg then .ninf else .pinf)
  else if low = "nan".data then some .nan
  else
    let ipart := cs1.takeWhile Char.isDigit
    let rest1 := cs1.dropWhile Char.isDigit
    let (fpart, rest2) :=
      match rest1 with
      | '.' :: t => (t.takeWhile Char.isDigit, t.dropWhile Char.isDigit)
      | _ => ([], rest1)
    if ipart.isEmpty && fpart.isEmpty then none
    else
      match parseExp rest2 with
      | none => none
      | some e =>
        some (.fin (decValue neg (digitsVal ((ipart ++ fpart).map digitVal)) fpart.length e))

/-- Python `int(s)` on a string: strip whitespace, optional sign, digits. -/
def pyParseInt (s : String) : Option Int :=
  let cs := stripChars s.data
  let (neg, cs1) := parseSign cs
  if cs1.isEmpty || !cs1.all Char.isDigit then none
  else
    let n : Int := (digitsVal (cs1.map digitVal) : Nat)
    some (if neg then -n else n)

/-- Python `int(float(s))`: `none` when either conversion raises. -/
def pyFloatTruncInt (s : String) : Option Int :=
  (pyFloatParse s).bind pyTruncToInt

/-- The integer-normalised key `str(int(float(raw)))` used by the country
lookup; `none` when normalisation fails. -/
def normIntKey (s : String) : Option String :=
  (pyFloatTruncInt s).map intToStr

/-! ### Float formatting -/

/-- Decimal string of `n` left-padded with zeros to width `w`. -/
def padZero (w : Nat) (n : Nat) : String :=
  let s := natToStr n
  String.mk (List.replicate (w - s.data.length) '0') ++ s

/-- Python `f"{x:.2f}"` on the float model: two-decimal fixed-point with
round-half-to-even; infinities and NaN format as `inf`/`-inf`/`nan`. -/
def fmtFloat2 : PyFloat → String
  | .fin q =>
    let sgn := if q.num < 0 then "-" else ""
    let scaled : Nat := (rhe ⟨(q.num.natAbs : Int) * 100, q.den⟩).toNat
    sgn ++ natToStr (scaled / 100) ++ "." ++ padZero 2 (scaled % 100)
  | .pinf => "inf"
  | .ninf => "-inf"
  | .nan => "nan"

/-! ### Derivation helpers (`safe_float`, `fmt_num`, age derivations) -/

/-- `safe_float(x)`: `float(x)` with every exception mapped to `None`. -/
def safe_float (s : String) : Option PyFloat := pyFloatParse s

/-- `_to_float(x)` from the summary section: empty string maps to `None`,
otherwise `float(x)` with exceptions mapped to `None`. -/
def toFloatOpt (s : String) : Option PyFloat :=
  if s = "" then none else pyFloatParse s

/-- `fmt_num(x, nd=2)`: two-decimal formatting, empty for `None`. -/
def fmt_num (x : Option PyFloat) : String :=
  match x with
  | some v => fmtFloat2 v
  | none => ""

/-- `derive_age_days(months_str)`: `str(int(round(m*30)))` when `safe_float`
succeeds, `""` otherwise.  The outer `Option` is `none` exactly when Python
would raise out of the function (`round` on an infinite/NaN parse). -/
def derive_age_days (s : String) : Option String :=
  match safe_float s with
  | some m => (pyRound (pfMulNat m 30)).map intToStr
  | none => some ""

/-- `derive_age_years(months_str)`: `f"{m/12.0:.2f}"` when `safe_float`
succeeds, `""` otherwise; total (formatting never raises). -/
def derive_age_years (s : String) : String :=
  match safe_float s with
  | some m => fmtFloat2 (pfDivNat m 12)
  | none => ""

/-! ### Country lookup (`_country_lookup`) -/

/-- The synthesised fallback name `f"Unknown ({code_raw})"`. -/
def unknownName (raw : String) : String := "Unknown (" ++ raw ++ ")"

/-- Tail of `_country_lookup` after the override map has been exhausted:
look `key` up in the name/ISO maps, fall back to the raw code against the
name map if the name is still empty, then synthesise the `Unknown` name. -/
def lookupTail (code_raw key : String) (nm im : List (String × String)) : String × String :=
  let name := (alookup nm key).getD ""
  let iso := (alookup im key).getD ""
  match (if name = "" then alookup nm code_raw else none) with
  | some n2 => (if n2 = "" then unknownName code_raw else n2, (alookup im code_raw).getD iso)
  | none => (if name = "" then unknownName code_raw else name, iso)

/-- `_country_lookup(code_raw, name_map, iso_map, json_map)`. -/
def countryLookup (code_raw : String) (nm im jm : List (String × String)) : String × String :=
  if code_raw = "" then ("", "")
  else
    match alookup jm code_raw with
    | some v => (v, "")
    | none =>
      match normIntKey code_raw with
      | some as_int =>
        match alookup jm as_int with
        | some v => (v, "")
        | none => lookupTail code_raw as_int nm im
      | none => lookupTail code_raw code_raw nm im

/-- The lookup key after normalisation, `str(int(float(raw)))` when that
succeeds and the literal raw string otherwise. -/
def specNormKey (raw : String) : String :=
  match normIntKey raw with
  | some k => k
  | none => raw

/-- The country lookup as the specification words it: a priority chain —
empty input, raw key in the override map, integer-normalised key in the
override map, normalised key against name/ISO maps, raw key against the
name map as final fallback, `Unknown (<raw>)` synthesis. -/
def countryLookupSpec (raw : String) (nm im jm : List (String × String)) : String × String :=
  if raw = "" then ("", "")
  else
    match alookup jm raw with
    | some v => (v, "")
    | none =>
      match (normIntKey raw).bind (fun k => alookup jm k) with
      | some v => (v, "")
      | none =>
        let k := specNormKey raw
        let name0 := (alookup nm k).getD ""
        let iso0 := (alookup im k).getD ""
        let p :=
          if name0 = "" ∧ (alookup nm raw).isSome then
            ((alookup nm raw).getD "", (alookup im raw).getD iso0)
          else (name0, iso0)
        (if p.1 = "" then unknownName raw else p.1, p.2)

/-! ### Brace-table parser (`_brace_body`, `_parse_area_codes_from_lua`) -/

/-- Opening brace character (written via its code point). -/
def lbrace : Char := Char.ofNat 123

/-- Closing brace character (written via its code point). -/
def rbrace : Char := Char.ofNat 125

/-- Double-quote character (written via its code point). -/
def qu : Char := Char.ofNat 34

/-- First index at which `pat` occurs in `cs` (Python `str.find`, as an
`Option`). -/
def findSub : List Char → List Char → Option Nat
  | [], pat => if pat.isEmpty then some 0 else none
  | c :: t, pat =>
    if pat.isPrefixOf (c :: t) then some 0
    else (findSub t pat).map (· + 1)

/-- Depth-tracking scan after an opening brace (`depth` starts at 1):
accumulates the characters strictly inside the outermost braces, `none`
if the depth never returns to zero. -/
def braceBodyAux : List Char → Nat → List Char → Option (List Char)
  | [], _, _ => none
  | c :: t, depth, acc =>
    if c = lbrace then braceBodyAux t (depth + 1) (acc ++ [c])
    else if c = rbrace then
      if depth = 1 then some acc else braceBodyAux t (depth - 1) (acc ++ [c])
    else braceBodyAux t depth (acc ++ [c])

/-- `_brace_body(text, header)`: locate `header`, then the next opening
brace, then the balanced brace body; `none` on any failure. -/
def braceBody (text header : String) : Option String :=
  match findSub text.data header.data with
  | none => none
  | some i =>
    let t1 := (text.data.drop i).dropWhile (fun c => c ≠ lbrace)
    match t1 with
    | [] => none
    | _ :: t2 => (braceBodyAux t2 1 []).map String.mk

/-- Skip regex `\s*`. -/
def skipWs (cs : List Char) : List Char := cs.dropWhile pyIsSpace

/-- Match the entry pattern `\[\s*(\d+)\s*\]\s*=\s*{(.*?)}` at the head of
`cs`; on success returns (digits, non-greedy body, rest after the match). -/
def tryEntry (cs : List Char) : Option (List Char × List Char × List Char) :=
  match cs with
  | '[' :: t =>
    let t1 := skipWs t
    let ds := t1.takeWhile Char.isDigit
    if ds.isEmpty then none
    else
      match skipWs (t1.dropWhile Char.isDigit) with
      | ']' :: t4 =>
        match skipWs t4 with
        | '=' :: t6 =>
          match skipWs t6 with
          | c :: t8 =>
            if c = lbrace then
              let sub := t8.takeWhile (fun d => d ≠ rbrace)
              match t8.dropWhile (fun d => d ≠ rbrace) with
              | _ :: t9 => some (ds, sub, t9)
              | [] => none
            else none
          | [] => none
        | _ => none
      | _ => none
  | _ => none

/-- `re.finditer` of the entry pattern: leftmost, non-overlapping matches. -/
def entriesAux : Nat → List Char → List (List Char × List Char)
  | 0, _ => []
  | fuel + 1, cs =>
    match tryEntry cs with
    | some (ds, sub, rest) => (ds, sub) :: entriesAux fuel rest
    | none =>
      match cs with
      | [] => []
      | _ :: t => entriesAux fuel t

/-- The literal part `\["<word>"\]` of the inner key patterns. -/
def innerPat (word : List Char) : List Char :=
  '[' :: qu :: (word ++ [qu, ']'])

/-- Match `<pat>\s*=\s*"([^"]*)"` at the head of `cs`. -/
def tryInner (pat cs : List Char) : Option (List Char) :=
  if pat.isPrefixOf cs then
    match skipWs (cs.drop pat.length) with
    | '=' :: t2 =>
      match skipWs t2 with
      | c :: t4 =>
        if c = qu then
          match t4.dropWhile (fun d => d ≠ qu) with
          | _ :: _ => some (t4.takeWhile (fun d => d ≠ qu))
          | [] => none
        else none
      | [] => none
    | _ => none
  else none

/-- `re.search` of an inner key pattern: leftmost match anywhere. -/
def searchInner : Nat → List Char → List Char → Option (List Char)
  | 0, _, _ => none
  | fuel + 1, pat, cs =>
    match tryInner pat cs with
    | some v => some v
    | none =>
      match cs with
      | [] => none
      | _ :: t => searchInner fuel pat t

/-- Python dict insert: replace the value if the key exists, else append. -/
def upsert (l : List (String × String)) (k v : String) : List (String × String) :=
  match l with
  | [] => [(k, v)]
  | (k2, v2) :: t => if k2 = k then (k2, v) :: t else (k2, v2) :: upsert t k v

/-- `_parse_area_codes_from_lua(lua_text)`: returns `(name_map, iso_map)`. -/
def parseAreaCodes (lua_text : String) : List (String × String) × List (String × String) :=
  match braceBody lua_text "AREA_CODES" with
  | none => ([], [])
  | some body =>
    if body = "" then ([], [])
    else
      let entries := entriesAux body.data.length body.data
      entries.foldl
        (fun maps e =>
          let idx := String.mk e.1
          let mcode := searchInner (e.2.length + 1) (innerPat "code".data) e.2
          let mname := searchInner (e.2.length + 1) (innerPat "country".data) e.2
          (match mname with | some v => upsert maps.1 idx (String.mk v) | none => maps.1,
           match mcode with | some v => upsert maps.2 idx (String.mk v) | none => maps.2))
        ([], [])

/-! ### Proleptic Gregorian calendar (model of `datetime.date` + `timedelta`)

`datetime.date` is linear in its ordinal (days since 0001-01-01 = day 1) and
supports years 1..9999; adding a `timedelta` adds exact days to the ordinal
and raises `OverflowError` outside that range. -/

/-- Gregorian leap-year test. -/
def isLeap (y : Nat) : Bool := (y % 4 == 0 && y % 100 != 0) || y % 400 == 0

/-- Length of month `m` for a (non-)leap year. -/
def monthLen (leap : Bool) (m : Nat) : Nat :=
  if m = 2 then (if leap then 29 else 28)
  else if m = 4 ∨ m = 6 ∨ m = 9 ∨ m = 11 then 30 else 31

/-- Days in the year before month `m` (1-based; `daysBeforeMonth leap 13`
is the year length). -/
def daysBeforeMonth (leap : Bool) : Nat → Nat
  | 0 => 0
  | 1 => 0
  | m + 1 => daysBeforeMonth leap m + monthLen leap m

/-- Number of days of a year. -/
def yearDays (leap : Bool) : Nat := if leap then 366 else 365

/-- Days before January 1 of year `y` (standard Gregorian count). -/
def daysBeforeYear (y : Nat) : Nat :=
  365 * (y - 1) + (y - 1) / 4 - (y - 1) / 100 + (y - 1) / 400

/-- A calendar date as a `(year, month, day)` triple. -/
abbrev DateT := Nat × Nat × Nat

/-- `date.toordinal()`: 0001-01-01 is day 1. -/
def toOrd (d : DateT) : Nat :=
  daysBeforeYear d.1 + daysBeforeMonth (isLeap d.1) d.2.1 + d.2.2

/-- The largest valid ordinal, `date(9999, 12, 31).toordinal()`. -/
def maxOrd : Nat := daysBeforeYear 10000

/-- Validity check of the `date(y, m, d)` constructor. -/
def validDate (d : DateT) : Bool :=
  1 ≤ d.1 && d.1 ≤ 9999 && 1 ≤ d.2.1 && d.2.1 ≤ 12 &&
  1 ≤ d.2.2 && d.2.2 ≤ monthLen (isLeap d.1) d.2.1

/-- Month and day-of-month from a 1-based day-of-year count, scanning
months from `m` (fuel 12 from January always suffices). -/
def monthFromOrd (leap : Bool) : Nat → Nat → Nat → Nat × Nat
  | 0, m, n => (m, n)
  | fuel + 1, m, n =>
    if n ≤ monthLen leap m then (m, n)
    else monthFromOrd leap fuel (m + 1) (n - monthLen leap m)

/-- Date from a 1-based ordinal counted from January 1 of year `y`
(fuel `10000 - y` always suffices for in-range ordinals). -/
def dateFromOrd : Nat → Nat → Nat → DateT
  | 0, y, n => (y, 1, n)
  | fuel + 1, y, n =>
    if n ≤ yearDays (isLeap y) then
      let md := monthFromOrd (isLeap y) 12 1 n
      (y, md.1, md.2)
    else dateFromOrd fuel (y + 1) (n - yearDays (isLeap y))

/-- `date.fromordinal(n)` for `1 ≤ n ≤ maxOrd`. -/
def fromOrd (n : Nat) : DateT := dateFromOrd 10000 1 n

/-- `date.isoformat()`: zero-padded `YYYY-MM-DD`. -/
def isoDate (d : DateT) : String :=
  padZero 4 d.1 ++ "-" ++ padZero 2 d.2.1 ++ "-" ++ padZero 2 d.2.2

/-- `derive_due_date(y, m, d, duration_str)`: all four fields non-empty,
`int(...)` parses for the date parts and `int(float(...))` for the duration,
the start date is constructor-valid, and the shifted ordinal stays inside
the `date` range; otherwise the caught exception yields `""`. -/
def derive_due_date (ys ms ds durs : String) : String :=
  if ys = "" ∨ ms = "" ∨ ds = "" ∨ durs = "" then ""
  else
    match pyParseInt ys with
    | none => ""
    | some y =>
      match pyParseInt ms with
      | none => ""
      | some m =>
        match pyParseInt ds with
        | none => ""
        | some d =>
          match pyFloatTruncInt durs with
          | none => ""
          | some dur =>
            if validDate (y.toNat, m.toNat, d.toNat) then
              if 1 ≤ (toOrd (y.toNat, m.toNat, d.toNat) : Int) + dur ∧
                  (toOrd (y.toNat, m.toNat, d.toNat) : Int) + dur ≤ (maxOrd : Int) then
                isoDate (fromOrd ((toOrd (y.toNat, m.toNat, d.toNat) : Int) + dur).toNat)
              else ""
            else ""

/-! ### Document model and tiny XML helpers -/

/-- One element of the parsed `placeables.xml` document: tag, attributes,
stripped-relevant text, children in document order. -/
structure XmlNode where
  tag : String
  attrs : List (String × String)
  text : String
  children : List XmlNode

/-- `_get_attr(elem, name, default)`. -/
def getAttr (oe : Option XmlNode) (name default : String) : String :=
  match oe with
  | some e => (alookup e.attrs name).getD default
  | none => default

/-- `_child(elem, name)`: first child with the given tag. -/
def child (oe : Option XmlNode) (name : String) : Option XmlNode :=
  match oe with
  | some e => e.children.find? (fun c => c.tag == name)
  | none => none

/-- `elem.findall(name)` (children with the given tag, in order). -/
def findall (oe : Option XmlNode) (name : String) : List XmlNode :=
  match oe with
  | some e => e.children.filter (fun c => c.tag == name)
  | none => []

/-- `_text(elem)`: stripped element text, empty for a missing node or text. -/
def textOf (oe : Option XmlNode) : String :=
  match oe with
  | some e => if e.text = "" then "" else pyStrip e.text
  | none => ""

/-- The segment of a path after the last slash (posix `os.path.basename`). -/
def afterLastSlash (cs : List Char) : List Char :=
  cs.foldl (fun acc c => if c = '/' then [] else acc ++ [c]) []

/-- `_basename_or(val, fallback)`. -/
def basename_or (val fallback : String) : String :=
  if val = "" then fallback else String.mk (afterLastSlash val.data)

/-! ### Species detection and normalisation -/

/-- `SPECIES_KEYS`, an insertion-ordered synonym table. -/
def SPECIES_KEYS : List (String × String) :=
  [("cow", "cows"), ("cattle", "cows"), ("beef", "cows"),
   ("sheep", "sheep"), ("lamb", "sheep"), ("ovine", "sheep"),
   ("pig", "pigs"), ("hog", "pigs"), ("swine", "pigs"), ("porcine", "pigs"),
   ("chicken", "chickens"), ("hen", "chickens"), ("poultry", "chickens"),
   ("goat", "goats"), ("caprine", "goats"),
   ("horse", "horses"), ("equine", "horses")]

/-- First synonym key occurring in `s` (table order), mapped to its tag. -/
def firstKey (s : String) : Option String :=
  SPECIES_KEYS.findSome? (fun kv => if strContains s kv.1 then some kv.2 else none)

/-- The individual's own type signal: `type` attribute, else `animalType`. -/
def speciesOrAnimalType (a : XmlNode) : String :=
  pyOr (getAttr (some a) "type" "") (getAttr (some a) "animalType" "")

/-- `infer_species(placeable, shed_file, animal)`. -/
def infer_species (plc : XmlNode) (shed_file : String) (a : XmlNode) : String :=
  let t := speciesOrAnimalType a
  match (if t = "" then none else firstKey (pyLower t)) with
  | some v => v
  | none =>
    match firstKey (pyLower (textOf (child (some plc) "type"))) with
    | some v => v
    | none =>
      match firstKey (pyLower shed_file) with
      | some v => v
      | none => ""

/-- Canonicalise one user-supplied species word. -/
def canonOf (k : String) : String :=
  if k ∈ SPECIES_KEYS.map Prod.snd then k else (alookup SPECIES_KEYS k).getD k

/-- Split a character list at commas (Python `s.split(",")`, which yields
one piece per separator, empty pieces included). -/
def splitCommaAux : List Char → List Char → List String
  | [], acc => [String.mk acc.reverse]
  | c :: t, acc =>
    if c = ',' then String.mk acc.reverse :: splitCommaAux t []
    else splitCommaAux t (c :: acc)

/-- Python `s.split(",")`. -/
def pySplitComma (s : String) : List String := splitCommaAux s.data []

/-- Order-preserving de-duplication with a seen accumulator. -/
def dedupAux : List String → List String → List String
  | _, [] => []
  | seen, x :: t => if x ∈ seen then dedupAux seen t else x :: dedupAux (seen ++ [x]) t

/-- `normalize_species_list(s)`. -/
def normalize_species_list (s : String) : List String :=
  dedupAux []
    ((pySplitComma s).filterMap (fun raw =>
      let k := pyLower (pyStrip raw)
      if k = "" then none else some (canonOf k)))

/-! ### Record builder (`parse_placeables`) -/

/-- Rows are the script's per-record dicts: insertion-ordered string maps. -/
abbrev Row := List (String × String)

/-- `ANIMAL_COLUMNS`. -/
def ANIMAL_COLUMNS : List String :=
  ["placeable_id", "current_shed", "shed_type", "species", "breed", "FarmID",
   "unique_id", "name", "sex", "age", "age_days", "age_years", "weight",
   "animal_health", "animal_gen_metabolism", "animal_gen_quality",
   "animal_gen_health", "animal_gen_fertility", "animal_gen_productivity",
   "birthday_day", "birthday_month", "birthday_year", "country",
   "country_name", "country_iso", "is_parent", "is_pregnant", "preg_day",
   "preg_month", "preg_year", "preg_duration", "preg_due_date",
   "preg_fetus_count", "purchase_date", "purchase_price"]

/-- `FETUS_COLUMNS`. -/
def FETUS_COLUMNS : List String :=
  ["mother_unique_id", "current_shed", "shed_type", "species", "mother_breed",
   "fetus_index", "sex", "breed", "health", "gen_metabolism", "gen_quality",
   "gen_health", "gen_fertility", "gen_productivity", "due_date", "preg_day",
   "preg_month", "preg_year", "preg_duration", "FarmID", "country",
   "country_name", "country_iso"]

/-- The fetus entries of a pregnancy node (`pregnancies/pregnancy`),
empty when the `pregnancies` node is absent. -/
def fetusNodesOf (p : XmlNode) : List XmlNode :=
  findall (child (some p) "pregnancies") "pregnancy"

/-- The animal row dict, with every `ANIMAL_COLUMNS` key and the values the
document pass assigns (absent sources leave the `""` initialisation).
`derive_age_days` carries its escaping exception as an `Option`; the row
builder discards it with `.getD ""` because a non-finite age would in
reality abort the whole run before any row exists, a partiality tracked at
the derivation level rather than threaded through the traversal. -/
def buildAnimalRow (placeable_id current_shed shed_type species : String)
    (nm im jm : List (String × String)) (a : XmlNode) : Row :=
  let g := child (some a) "genetics"
  let bday := child (some a) "birthday"
  let cpair :=
    match bday with
    | some b => countryLookup (getAttr (some b) "country" "") nm im jm
    | none => ("", "")
  let preg := child (some a) "pregnancy"
  let ageStr := getAttr (some a) "age" ""
  [("placeable_id", placeable_id),
   ("current_shed", current_shed),
   ("shed_type", shed_type),
   ("species", species),
   ("breed", getAttr (some a) "subType" ""),
   ("FarmID", getAttr (some a) "farmId" ""),
   ("unique_id", getAttr (some a) "id" ""),
   ("name", getAttr (some a) "name" ""),
   ("sex", getAttr (some a) "gender" ""),
   ("age", ageStr),
   ("age_days", (derive_age_days ageStr).getD ""),
   ("age_years", derive_age_years ageStr),
   ("weight", getAttr (some a) "weight" ""),
   ("animal_health", getAttr (some a) "health" ""),
   ("animal_gen_metabolism", getAttr g "metabolism" ""),
   ("animal_gen_quality", getAttr g "quality" ""),
   ("animal_gen_health", getAttr g "health" ""),
   ("animal_gen_fertility", getAttr g "fertility" ""),
   ("animal_gen_productivity", getAttr g "productivity" ""),
   ("birthday_day", getAttr bday "day" ""),
   ("birthday_month", getAttr bday "month" ""),
   ("birthday_year", getAttr bday "year" ""),
   ("country", getAttr bday "country" ""),
   ("country_name", cpair.1),
   ("country_iso", cpair.2),
   ("is_parent", getAttr (some a) "isParent" ""),
   ("is_pregnant", getAttr (some a) "isPregnant" ""),
   ("preg_day", getAttr preg "day" ""),
   ("preg_month", getAttr preg "month" ""),
   ("preg_year", getAttr preg "year" ""),
   ("preg_duration", getAttr preg "duration" ""),
   ("preg_due_date",
     match preg with
     | some p => derive_due_date (getAttr (some p) "year" "") (getAttr (some p) "month" "")
         (getAttr (some p) "day" "") (getAttr (some p) "duration" "")
     | none => ""),
   ("preg_fetus_count",
     match preg with
     | some p => natToStr (fetusNodesOf p).length
     | none => ""),
   ("purchase_date", ""),
   ("purchase_price", "")]

/-- One fetus row, copying lineage fields from the mother's row. -/
def buildFetusRow (row : Row) (current_shed shed_type species : String)
    (i : Nat) (f : XmlNode) : Row :=
  let fg := child (some f) "genetics"
  [("mother_unique_id", rget row "unique_id"),
   ("current_shed", current_shed),
   ("shed_type", shed_type),
   ("species", species),
   ("mother_breed", rget row "breed"),
   ("fetus_index", natToStr i),
   ("sex", getAttr (some f) "gender" ""),
   ("breed", getAttr (some f) "subType" ""),
   ("health", getAttr (some f) "health" ""),
   ("gen_metabolism", getAttr fg "metabolism" ""),
   ("gen_quality", getAttr fg "quality" ""),
   ("gen_health", getAttr fg "health" ""),
   ("gen_fertility", getAttr fg "fertility" ""),
   ("gen_productivity", getAttr fg "productivity" ""),
   ("due_date", rget row "preg_due_date"),
   ("preg_day", rget row "preg_day"),
   ("preg_month", rget row "preg_month"),
   ("preg_year", rget row "preg_year"),
   ("preg_duration", rget row "preg_duration"),
   ("FarmID", rget row "FarmID"),
   ("country", rget row "country"),
   ("country_name", rget row "country_name"),
   ("country_iso", rget row "country_iso")]

/-- The species-filter skip test (`species_filter and species and species not
in species_filter`, with Python truthiness for the list). -/
def speciesSkip (fl : Option (List String)) (species : String) : Bool :=
  match fl with
  | none => false
  | some l => if l = [] then false else if species = "" then false else !(l.contains species)

/-- The farm-id skip test (`farmid_filter and attr != str(farmid_filter)`). -/
def farmSkip (ff : Option String) (a : XmlNode) : Bool :=
  match ff with
  | none => false
  | some f => if f = "" then false else getAttr (some a) "farmId" "" != f

/-- Process one `animal` node: `none` when a filter skips it, otherwise the
animal row and its fetus rows in document order. -/
def processAnimal (plc : XmlNode) (shed_file placeable_id current_shed shed_type : String)
    (nm im jm : List (String × String)) (fl : Option (List String)) (ff : Option String)
    (a : XmlNode) : Option (Row × List Row) :=
  let species := infer_species plc shed_file a
  if speciesSkip fl species then none
  else if farmSkip ff a then none
  else
    let row := buildAnimalRow placeable_id current_shed shed_type species nm im jm a
    let frows :=
      match child (some a) "pregnancy" with
      | some p => (fetusNodesOf p).enum.map
          (fun e => buildFetusRow row current_shed shed_type species (e.1 + 1) e.2)
      | none => []
    some (row, frows)

/-- Process one `placeable` node: empty unless the
`husbandryAnimals/clusters` path exists. -/
def processPlaceable (nm im jm : List (String × String)) (fl : Option (List String))
    (ff : Option String) (plc : XmlNode) : List (Row × List Row) :=
  let shed_file := getAttr (some plc) "filename" ""
  let placeable_id := pyOr (getAttr (some plc) "id" "") (getAttr (some plc) "uniqueId" "")
  let current_shed := basename_or shed_file (pyOr placeable_id "Husbandry")
  let shed_type := pyOr (textOf (child (some plc) "type")) (basename_or shed_file "")
  match child (some plc) "husbandryAnimals" with
  | none => []
  | some ha =>
    match child (some ha) "clusters" with
    | none => []
    | some cl =>
      (findall (some cl) "animal").filterMap
        (processAnimal plc shed_file placeable_id current_shed shed_type nm im jm fl ff)

/-- All (animal row, fetus rows) pairs of the document, in traversal order. -/
def parsePairs (nm im jm : List (String × String)) (fl : Option (List String))
    (ff : Option String) (root : XmlNode) : List (Row × List Row) :=
  (findall (some root) "placeable").flatMap (processPlaceable nm im jm fl ff)

/-- `parse_placeables` on an already-parsed document root: the animals table
and the fetuses table (file reading and the parse-failure fallback to empty
tables are out-of-scope I/O). -/
def parse_placeables (root : XmlNode) (nm im jm : List (String × String))
    (fl : Option (List String)) (ff : Option String) : List Row × List Row :=
  let pairs := parsePairs nm im jm fl ff root
  (pairs.map Prod.fst, pairs.flatMap Prod.snd)

/-! ### Summaries (`summarize`) -/

/-- `SUMMARY_COLUMNS`. -/
def SUMMARY_COLUMNS : List String :=
  ["current_shed", "shed_type", "species", "breed", "animals_count",
   "pregnant_count", "avg_age_months", "avg_age_years", "avg_health",
   "avg_gen_metabolism", "avg_gen_quality", "avg_gen_health",
   "avg_gen_fertility", "avg_gen_productivity", "total_fetuses"]

/-- The grouping key `(current_shed, shed_type, species, breed)`. -/
abbrev GKey := String × String × String × String

/-- Key of a row. -/
def keyOf (r : Row) : GKey :=
  (rget r "current_shed", rget r "shed_type", rget r "species", rget r "breed")

/-- `groups.setdefault(key, []).append(r)` on an insertion-ordered dict. -/
def groupInsert (gs : List (GKey × List Row)) (k : GKey) (r : Row) : List (GKey × List Row) :=
  match gs with
  | [] => [(k, [r])]
  | (k2, rs) :: t => if k2 = k then (k2, rs ++ [r]) :: t else (k2, rs) :: groupInsert t k r

/-- Group the animal rows by key, keys in first-seen order. -/
def groupRows (rows : List Row) : List (GKey × List Row) :=
  rows.foldl (fun gs r => groupInsert gs (keyOf r) r) []

/-- Truthy pregnancy flag values. -/
def pregTrue (s : String) : Bool :=
  ["true", "1", "yes", "on"].contains (pyLower s)

/-- `avg(arr)`: `None` on an empty list. -/
def avgOpt (l : List PyFloat) : Option PyFloat :=
  if l = [] then none else some (pfDivNat (pfSum l) l.length)

/-- The parseable numeric values of one field over the group members. -/
def fieldVals (items : List Row) (field : String) : List PyFloat :=
  items.filterMap (fun it => toFloatOpt (rget it field))

/-- One summary row for a group. -/
def summaryRow (g : GKey × List Row) : Row :=
  let items := g.2
  let ages := fieldVals items "age"
  let totalFet : Int := items.foldl
    (fun acc it => acc + ((pyParseInt (pyOr (rget it "preg_fetus_count") "0")).getD 0)) 0
  [("current_shed", g.1.1),
   ("shed_type", g.1.2.1),
   ("species", g.1.2.2.1),
   ("breed", g.1.2.2.2),
   ("animals_count", natToStr items.length),
   ("pregnant_count", natToStr (items.countP (fun it => pregTrue (rget it "is_pregnant")))),
   ("avg_age_months", fmt_num (avgOpt ages)),
   ("avg_age_years",
     fmt_num (if ages = [] then none
              else some (pfDivNat (pfDivNat (pfSum ages) ages.length) 12))),
   ("avg_health", fmt_num (avgOpt (fieldVals items "animal_health"))),
   ("avg_gen_metabolism", fmt_num (avgOpt (fieldVals items "animal_gen_metabolism"))),
   ("avg_gen_quality", fmt_num (avgOpt (fieldVals items "animal_gen_quality"))),
   ("avg_gen_health", fmt_num (avgOpt (fieldVals items "animal_gen_health"))),
   ("avg_gen_fertility", fmt_num (avgOpt (fieldVals items "animal_gen_fertility"))),
   ("avg_gen_productivity", fmt_num (avgOpt (fieldVals items "animal_gen_productivity"))),
   ("total_fetuses", intToStr totalFet)]

/-- Strict string order (Python code-point comparison). -/
def strLt (a b : String) : Bool := decide (a < b)

/-- Sort key comparison `(current_shed, species, breed)`, lexicographic. -/
def sortLe (a b : Row) : Bool :=
  strLt (rget a "current_shed") (rget b "current_shed") ||
    (rget a "current_shed" == rget b "current_shed" &&
      (strLt (rget a "species") (rget b "species") ||
        (rget a "species" == rget b "species" &&
          (strLt (rget a "breed") (rget b "breed") || rget a "breed" == rget b "breed"))))

/-- Stable insertion of `x` before the first element it compares `≤` to. -/
def insertRow (x : Row) : List Row → List Row
  | [] => [x]
  | y :: t => if sortLe x y then x :: y :: t else y :: insertRow x t

/-- Stable ascending insertion sort.  Python's `list.sort` is a stable
ascending sort by the same key; stable ascending sorts of one list under one
total preorder coincide, so this models it exactly (and stays structurally
recursive, hence kernel-computable). -/
def sortRowsAux : List Row → List Row
  | [] => []
  | x :: t => insertRow x (sortRowsAux t)

/-- `summarize(animals_rows)`: group, aggregate, stable-sort by
`(current_shed, species, breed)`. -/
def summarize (rows : List Row) : List Row :=
  sortRowsAux ((groupRows rows).map summaryRow)

/-- The rows a species filter keeps: empty filter list, unclassified species,
or species contained in the filter (the complement of the builder's skip). -/
def speciesPass (fl : List String) (r : Row) : Bool :=
  fl.isEmpty || rget r "species" == "" || fl.contains (rget r "species")

/-! ### Concrete sample documents used by witnesses and counterexamples -/

/-- An animal node with the given id, pregnant with `k` fetuses. -/
def mkPregnantAnimal (id : String) (k : Nat) : XmlNode :=
  ⟨"animal", [("id", id), ("farmId", "1"), ("gender", "female"), ("age", "24"),
    ("isPregnant", "true"), ("subType", "ANGUS")], "",
    [⟨"pregnancy", [("day", "20"), ("month", "1"), ("year", "2025"), ("duration", "114")], "",
      [⟨"pregnancies", [], "",
        List.replicate k ⟨"pregnancy", [("gender", "male")], "", []⟩⟩]⟩]⟩

/-- A plain animal node with the given id and age. -/
def mkPlainAnimal (id age : String) : XmlNode :=
  ⟨"animal", [("id", id), ("farmId", "1"), ("gender", "male"), ("age", age)], "", []⟩

/-- A placeable housing the given animals. -/
def mkBarn (file : String) (animals : List XmlNode) : XmlNode :=
  ⟨"placeable", [("filename", file), ("id", "1")], "",
    [⟨"husbandryAnimals", [], "", [⟨"clusters", [], "", animals⟩]⟩]⟩

/-- Document with two distinct animals sharing the `id` attribute `"A"`,
each pregnant with one fetus. -/
def docC6dup : XmlNode :=
  ⟨"root", [], "", [mkBarn "cowBarn.xml" [mkPregnantAnimal "A" 1, mkPregnantAnimal "A" 1]]⟩

/-- Document with a doubly-pregnant animal and a plain animal. -/
def docC6w : XmlNode :=
  ⟨"root", [], "", [mkBarn "cowBarn.xml" [mkPregnantAnimal "X1" 2, mkPlainAnimal "X2" "30"]]⟩

/-- Document holding one cow-shed animal and one pig-shed animal. -/
def docC7w : XmlNode :=
  ⟨"root", [], "",
    [mkBarn "cowBarn.xml" [mkPlainAnimal "C1" "24"], mkBarn "pigSty.xml" [mkPlainAnimal "P1" "6"]]⟩

/-- Document used by the structural-completeness witness. -/
def docC9w : XmlNode :=
  ⟨"root", [], "", [mkBarn "cowBarn.xml" [mkPregnantAnimal "Y1" 1, mkPlainAnimal "Y2" ""]]⟩

/-- Document used by the summary witnesses: two cows (one age unparseable)
and a sheep. -/
def docSumW : XmlNode :=
  ⟨"root", [], "",
    [mkBarn "cowBarn.xml"
      [mkPlainAnimal "S1" "24", mkPlainAnimal "S2" "", mkPlainAnimal "S3" "36"],
     mkBarn "sheepBarn.xml" [mkPlainAnimal "S4" "12"]]⟩

/-- Concrete rows for the summary-mean witness: one group, ages partly
unparseable. -/
def rowsC5 : List Row :=
  [[("age", "24"), ("animal_health", "90")], [("age", "x")]]

/-- Concrete rows for the partition witness: two rows, one shared key. -/
def rowsC10 : List Row :=
  [[("species", "cows"), ("age", "24")], [("species", "cows"), ("age", "36")],
   [("species", "sheep")]]

/-! ## Helper lemmas -/

theorem digitsVal_append (ds : List Nat) (d : Nat) :
    digitsVal (ds ++ [d]) = digitsVal ds * 10 + d := by
  simp [digitsVal, List.foldl_append]

theorem natDigitsAux_spec (fuel : Nat) :
    ∀ n, n ≤ fuel → digitsVal (natDigitsAux fuel n) = n ∧
      natDigitsAux fuel n ≠ [] ∧ ∀ d ∈ natDigitsAux fuel n, d < 10 := by
  induction fuel with
  | zero =>
    intro n hn
    have hn0 : n = 0 := Nat.le_zero.mp hn
    subst hn0
    refine ⟨rfl, by simp [natDigitsAux], ?_⟩
    intro d hd
    simp [natDigitsAux] at hd
    omega
  | succ f ih =>
    intro n hn
    by_cases h : n < 10
    · refine ⟨?_, ?_, ?_⟩ <;> simp [natDigitsAux, h, digitsVal]
    · have hpos : 0 < n := by omega
      have hdiv : n / 10 < n := Nat.div_lt_self hpos (by omega)
      obtain ⟨h1, _h2, h3⟩ := ih (n / 10) (by omega)
      have heq : natDigitsAux (f + 1) n = natDigitsAux f (n / 10) ++ [n % 10] := by
        simp [natDigitsAux, h]
      refine ⟨?_, ?_, ?_⟩
      · rw [heq, digitsVal_append, h1]
        omega
      · simp [heq]
      · intro d hd
        rw [heq] at hd
        rcases List.mem_append.mp hd with hmem | hmem
        · exact h3 d hmem
        · simp at hmem
          omega

theorem digit_char_isDigit (d : Nat) (h : d < 10) :
    (Char.ofNat (48 + d)).isDigit = true := by
  interval_cases d <;> decide

theorem digit_char_val (d : Nat) (h : d < 10) :
    digitVal (Char.ofNat (48 + d)) = d := by
  interval_cases d <;> decide

theorem map_digit_char_val (ds : List Nat) (h : ∀ d ∈ ds, d < 10) :
    (ds.map (fun d => Char.ofNat (48 + d))).map digitVal = ds := by
  induction ds with
  | nil => rfl
  | cons d t ih =>
    simp only [List.map_cons, List.cons.injEq]
    exact ⟨digit_char_val d (h d (by simp)), ih (fun x hx => h x (by simp [hx]))⟩

theorem strToNat_natToStr (n : Nat) : strToNat (natToStr n) = some n := by
  obtain ⟨hval, hne, hlt⟩ := natDigitsAux_spec n n le_rfl
  have hdata : (natToStr n).data = (natDigitsAux n n).map (fun d => Char.ofNat (48 + d)) := rfl
  have hall : ((natDigitsAux n n).map (fun d => Char.ofNat (48 + d))).all Char.isDigit = true := by
    rw [List.all_eq_true]
    intro c hc
    obtain ⟨d, hd, hcd⟩ := List.mem_map.mp hc
    rw [← hcd]
    exact digit_char_isDigit d (hlt d hd)
  have hemp : ((natDigitsAux n n).map (fun d => Char.ofNat (48 + d))).isEmpty = false := by
    rcases hds : natDigitsAux n n with _ | ⟨d, t⟩
    · exact absurd hds hne
    · rfl
  rw [strToNat, hdata, hall, hemp]
  simp only [Bool.not_false, Bool.true_and, if_pos]
  rw [map_digit_char_val _ hlt, hval]

/-- Unfolded form of the lookup tail, matching the phrasing used by the
specification-side definition. -/
theorem lookupTail_spec (raw k : String) (nm im : List (String × String)) :
    lookupTail raw k nm im =
      (let name0 := (alookup nm k).getD ""
       let iso0 := (alookup im k).getD ""
       let p :=
         if name0 = "" ∧ (alookup nm raw).isSome then
           ((alookup nm raw).getD "", (alookup im raw).getD iso0)
         else (name0, iso0)
       (if p.1 = "" then unknownName raw else p.1, p.2)) := by
  unfold lookupTail
  by_cases h : (alookup nm k).getD "" = "" <;>
    cases h5 : alookup nm raw <;>
    simp [h, h5]

/-! ## Claim theorems -/

/-- C1: the country lookup, given a raw code string and the three maps,
follows the specified priority chain: empty input first, then the raw key in
the override map, then the integer-normalised key in the override map, then
the normalised key against the name/ISO maps with the raw key against the
name map as final fallback; codes failing normalisation are looked up as
literal strings. -/
theorem c1_country_lookup_priority_chain (raw : String) (nm im jm : List (String × String)) :
    countryLookup raw nm im jm = countryLookupSpec raw nm im jm := by
  unfold countryLookup countryLookupSpec
  by_cases hraw : raw = ""
  · simp [hraw]
  · rw [if_neg hraw, if_neg hraw]
    cases h1 : alookup jm raw with
    | some v => rfl
    | none =>
      cases h2 : normIntKey raw with
      | none => simp [h2, lookupTail_spec, specNormKey]
      | some k =>
        cases h3 : alookup jm k with
        | none => simp [h2, h3, lookupTail_spec, specNormKey]
        | some v => simp [h2, h3]

/-- C2 counterexample: with an empty name map but an ISO map containing the
key, the unresolved-name result carries the ISO hit, not the empty string
the claim demands. -/
theorem c2_counterexample :
    countryLookup "5" [] [("5", "XX")] [] = ("Unknown (5)", "XX") ∧
      ("Unknown (5)", "XX") ≠ (("Unknown (5)", "") : String × String) := by
  constructor
  · decide
  · decide

/-- C2 (amended): when no name is found by any lookup path, the name is the
synthesised `Unknown (<raw>)` string and the returned ISO is the ISO map's
value at the normalised key (empty when the ISO map lacks it). -/
theorem c2_unknown_synthesis (raw : String) (nm im jm : List (String × String))
    (hraw : raw ≠ "") (hjraw : alookup jm raw = none)
    (hjkey : alookup jm (specNormKey raw) = none)
    (hnkey : alookup nm (specNormKey raw) = none)
    (hnraw : alookup nm raw = none) :
    countryLookup raw nm im jm =
      (unknownName raw, (alookup im (specNormKey raw)).getD "") := by
  unfold countryLookup
  rw [if_neg hraw, hjraw]
  cases h2 : normIntKey raw with
  | none =>
    have hk : specNormKey raw = raw := by simp [specNormKey, h2]
    rw [hk] at hnkey
    simp [h2, lookupTail, hnraw, hk]
  | some k =>
    have hk : specNormKey raw = k := by simp [specNormKey, h2]
    rw [hk] at hjkey hnkey
    simp [h2, hjkey, lookupTail, hnkey, hnraw, hk]

/-- C2 witness: a code absent from every map resolves to the synthesised
name with an empty ISO. -/
theorem c2_unknown_synthesis_witness :
    countryLookup "3" [] [] [] = ("Unknown (3)", "") := by
  have h := c2_unknown_synthesis "3" [] [] [] (by decide) rfl rfl rfl rfl
  exact h.trans (by decide)

/-- C3: the brace-table parser maps the sample `AREA_CODES` table to the
expected name/ISO maps, and any input on which the header/brace scan fails
(absent identifier, no opening brace, or unbalanced braces) yields a pair of
empty maps. -/
theorem c3_area_codes_table :
    parseAreaCodes "AREA_CODES = \x7b [1] = \x7b [\"code\"]=\"US\", [\"country\"]=\"United States\" \x7d \x7d"
        = ([("1", "United States")], [("1", "US")]) ∧
      ∀ text, braceBody text "AREA_CODES" = none → parseAreaCodes text = ([], []) := by
  constructor
  · decide
  · intro text h
    simp [parseAreaCodes, h]

/-- C3 witness: a truncated table (braces never return to depth zero)
produces empty maps. -/
theorem c3_area_codes_table_witness :
    braceBody "AREA_CODES = \x7b [1] = \x7b" "AREA_CODES" = none ∧
      parseAreaCodes "AREA_CODES = \x7b [1] = \x7b" = ([], []) := by
  refine ⟨by decide, ?_⟩
  exact c3_area_codes_table.2 "AREA_CODES = \x7b [1] = \x7b" (by decide)

/-- C8: `derive_age_days` is not total — on input `"inf"` the float parse
succeeds (so the empty-sentinel branch is not taken) and `round` then raises
out of the function, modelled as `none`; on ordinary inputs the functions
return `round(m*30)` as an integer string resp. `m/12` to two decimals, and
the empty sentinel for unparseable input. -/
theorem c8_age_derivation_totality :
    safe_float "inf" = some PyFloat.pinf ∧
      derive_age_days "inf" = none ∧
      derive_age_days "24" = some "720" ∧
      derive_age_days "abc" = some "" ∧
      derive_age_years "24" = "2.00" ∧
      derive_age_years "inf" = "inf" ∧
      derive_age_years "abc" = "" := by
  refine ⟨?_, ?_, ?_, ?_, ?_, ?_, ?_⟩ <;> decide

/-! ## Calendar lemmas -/

theorem monthLen_pos (leap : Bool) (m : Nat) : 0 < monthLen leap m := by
  unfold monthLen
  split
  · split <;> omega
  · split <;> omega

theorem isLeap_iff (y : Nat) :
    isLeap y = true ↔ ((y % 4 = 0 ∧ y % 100 ≠ 0) ∨ y % 400 = 0) := by
  simp [isLeap, Bool.or_eq_true, Bool.and_eq_true, beq_iff_eq, bne_iff_ne]

theorem daysBeforeMonth_succ (leap : Bool) (m : Nat) (hm : 1 ≤ m) :
    daysBeforeMonth leap (m + 1) = daysBeforeMonth leap m + monthLen leap m := by
  match m, hm with
  | k + 1, _ => rfl

theorem daysBeforeMonth_one (leap : Bool) : daysBeforeMonth leap 1 = 0 := rfl

theorem daysBeforeMonth_13 (leap : Bool) : daysBeforeMonth leap 13 = yearDays leap := by
  cases leap <;> decide

set_option maxHeartbeats 1000000 in
theorem daysBeforeYear_succ (y : Nat) (hy : 1 ≤ y) :
    daysBeforeYear (y + 1) = daysBeforeYear y + yearDays (isLeap y) := by
  cases hb : isLeap y with
  | false =>
    have hc : ¬((y % 4 = 0 ∧ y % 100 ≠ 0) ∨ y % 400 = 0) := by
      intro h
      have := (isLeap_iff y).mpr h
      rw [hb] at this
      exact Bool.false_ne_true this
    rw [show yearDays false = 365 from rfl]
    unfold daysBeforeYear
    by_cases h4 : y % 4 = 0
    · by_cases h100 : y % 100 = 0
      · by_cases h400 : y % 400 = 0
        · exact absurd (Or.inr h400) hc
        · omega
      · exact absurd (Or.inl ⟨h4, h100⟩) hc
    · by_cases h400 : y % 400 = 0
      · exact absurd (Or.inr h400) hc
      · omega
  | true =>
    have hc : (y % 4 = 0 ∧ y % 100 ≠ 0) ∨ y % 400 = 0 := (isLeap_iff y).mp hb
    rw [show yearDays true = 366 from rfl]
    unfold daysBeforeYear
    rcases hc with ⟨h4, h100⟩ | h400
    · omega
    · omega

theorem monthFromOrd_spec (leap : Bool) :
    ∀ fuel m n, 1 ≤ m → 1 ≤ n → 13 ≤ m + fuel → m ≤ 12 →
      daysBeforeMonth leap m + n ≤ yearDays leap →
      1 ≤ (monthFromOrd leap fuel m n).1 ∧ (monthFromOrd leap fuel m n).1 ≤ 12 ∧
        1 ≤ (monthFromOrd leap fuel m n).2 ∧
        (monthFromOrd leap fuel m n).2 ≤ monthLen leap (monthFromOrd leap fuel m n).1 ∧
        daysBeforeMonth leap (monthFromOrd leap fuel m n).1 + (monthFromOrd leap fuel m n).2 =
          daysBeforeMonth leap m + n := by
  intro fuel
  induction fuel with
  | zero => intro m n hm1 hn1 hfuel hm12 _; omega
  | succ f ih =>
    intro m n hm1 hn1 hfuel hm12 hbound
    by_cases h : n ≤ monthLen leap m
    · have heq : monthFromOrd leap (f + 1) m n = (m, n) := by
        simp only [monthFromOrd]
        rw [if_pos h]
      rw [heq]
      exact ⟨hm1, hm12, hn1, h, rfl⟩
    · have hd : daysBeforeMonth leap (m + 1) = daysBeforeMonth leap m + monthLen leap m :=
        daysBeforeMonth_succ leap m hm1
      have hm12' : m + 1 ≤ 12 := by
        by_contra hc
        have hm12eq : m = 12 := by omega
        subst hm12eq
        have h13 : daysBeforeMonth leap 13 = yearDays leap := daysBeforeMonth_13 leap
        have hd13 : daysBeforeMonth leap 13 = daysBeforeMonth leap 12 + monthLen leap 12 := hd
        omega
      have hrec := ih (m + 1) (n - monthLen leap m) (by omega) (by omega) (by omega) hm12'
        (by omega)
      have heq : monthFromOrd leap (f + 1) m n = monthFromOrd leap f (m + 1) (n - monthLen leap m) := by
        simp only [monthFromOrd]
        rw [if_neg h]
      rw [heq]
      refine ⟨hrec.1, hrec.2.1, hrec.2.2.1, hrec.2.2.2.1, ?_⟩
      rw [hrec.2.2.2.2]
      omega

theorem dateFromOrd_spec :
    ∀ fuel y n, 1 ≤ y → 1 ≤ n → 10000 ≤ y + fuel → y ≤ 9999 →
      daysBeforeYear y + n ≤ maxOrd →
      validDate (dateFromOrd fuel y n) = true ∧
        toOrd (dateFromOrd fuel y n) = daysBeforeYear y + n := by
  intro fuel
  induction fuel with
  | zero => intro y n hy1 hn1 hfuel hy2 _; omega
  | succ f ih =>
    intro y n hy1 hn1 hfuel hy2 hbound
    by_cases h : n ≤ yearDays (isLeap y)
    · obtain ⟨q1, q2, q3, q4, q5⟩ := monthFromOrd_spec (isLeap y) 12 1 n (by omega) hn1
        (by omega) (by omega) (by rw [daysBeforeMonth_one]; omega)
      have heq : dateFromOrd (f + 1) y n =
          (y, (monthFromOrd (isLeap y) 12 1 n).1, (monthFromOrd (isLeap y) 12 1 n).2) := by
        simp only [dateFromOrd]
        rw [if_pos h]
      rw [heq]
      constructor
      · simp only [validDate, Bool.and_eq_true, decide_eq_true_eq]
        omega
      · simp only [toOrd]
        rw [daysBeforeMonth_one] at q5
        omega
    · have hsucc : daysBeforeYear (y + 1) = daysBeforeYear y + yearDays (isLeap y) :=
        daysBeforeYear_succ y hy1
      have hy2' : y + 1 ≤ 9999 := by
        by_contra hc
        have hyeq : y = 9999 := by omega
        subst hyeq
        have hmax : maxOrd = daysBeforeYear 9999 + yearDays (isLeap 9999) := by
          have := daysBeforeYear_succ 9999 (by omega)
          simpa [maxOrd] using this
        omega
      have hrec := ih (y + 1) (n - yearDays (isLeap y)) (by omega) (by omega) (by omega) hy2'
        (by omega)
      have heq : dateFromOrd (f + 1) y n = dateFromOrd f (y + 1) (n - yearDays (isLeap y)) := by
        simp only [dateFromOrd]
        rw [if_neg h]
      rw [heq]
      exact ⟨hrec.1, by rw [hrec.2]; omega⟩

theorem fromOrd_spec (n : Nat) (h1 : 1 ≤ n) (h2 : n ≤ maxOrd) :
    validDate (fromOrd n) = true ∧ toOrd (fromOrd n) = n := by
  have hd : daysBeforeYear 1 = 0 := rfl
  have := dateFromOrd_spec 10000 1 n (by omega) h1 (by omega) (by omega) (by omega)
  rw [fromOrd]
  exact ⟨this.1, by rw [this.2, hd]; omega⟩

theorem pyParseInt_empty : pyParseInt "" = none := by decide

theorem pyFloatTruncInt_empty : pyFloatTruncInt "" = none := by decide

/-! ## Claim theorem C4 -/

set_option maxRecDepth 10000 in
set_option maxHeartbeats 2000000 in
/-- C4: with all four fields non-empty and parseable and a constructor-valid
start date whose shifted ordinal stays in the `date` range, `due_date` is the
ISO form of the unique calendar date whose linear ordinal (Gregorian
day count, leap years included) is the start ordinal plus the duration — in
particular start (2025, 1, 20) plus 114 days is `"2025-05-14"` — and any
empty, unparseable, or calendar-invalid input yields `""` (the function is
total; no exception escapes). -/
theorem c4_due_date_calendar :
    (∀ ys ms ds durs : String, ∀ y m d dur : Int,
      pyParseInt ys = some y → pyParseInt ms = some m → pyParseInt ds = some d →
      pyFloatTruncInt durs = some dur →
      validDate (y.toNat, m.toNat, d.toNat) = true →
      1 ≤ (toOrd (y.toNat, m.toNat, d.toNat) : Int) + dur →
      (toOrd (y.toNat, m.toNat, d.toNat) : Int) + dur ≤ (maxOrd : Int) →
      ∃ r : DateT, validDate r = true ∧
        (toOrd r : Int) = (toOrd (y.toNat, m.toNat, d.toNat) : Int) + dur ∧
        derive_due_date ys ms ds durs = isoDate r) ∧
    (∀ ys ms ds durs : String,
      (ys = "" ∨ ms = "" ∨ ds = "" ∨ durs = "" ∨
        pyParseInt ys = none ∨ pyParseInt ms = none ∨ pyParseInt ds = none ∨
        pyFloatTruncInt durs = none ∨
        (∀ y m d : Int, pyParseInt ys = some y → pyParseInt ms = some m →
          pyParseInt ds = some d → validDate (y.toNat, m.toNat, d.toNat) = false)) →
      derive_due_date ys ms ds durs = "") ∧
    derive_due_date "2025" "1" "20" "114" = "2025-05-14" := by
  refine ⟨?_, ?_, ?_⟩
  · intro ys ms ds durs y m d dur hy hm hd hdur hvalid hlo hhi
    have hne : ¬(ys = "" ∨ ms = "" ∨ ds = "" ∨ durs = "") := by
      rintro (h | h | h | h) <;> subst h <;>
        simp [pyParseInt_empty, pyFloatTruncInt_empty] at hy hm hd hdur
    have hlo' : 1 ≤ ((toOrd (y.toNat, m.toNat, d.toNat) : Int) + dur).toNat := by omega
    have hhi' : ((toOrd (y.toNat, m.toNat, d.toNat) : Int) + dur).toNat ≤ maxOrd := by omega
    obtain ⟨hv, ho⟩ := fromOrd_spec ((toOrd (y.toNat, m.toNat, d.toNat) : Int) + dur).toNat hlo' hhi'
    refine ⟨fromOrd ((toOrd (y.toNat, m.toNat, d.toNat) : Int) + dur).toNat, hv,
      by rw [ho]; omega, ?_⟩
    rw [derive_due_date, if_neg hne]
    simp only [hy, hm, hd, hdur]
    rw [if_pos hvalid, if_pos ⟨hlo, hhi⟩]
  · intro ys ms ds durs hcase
    by_cases hne : ys = "" ∨ ms = "" ∨ ds = "" ∨ durs = ""
    · simp [derive_due_date, hne]
    · rw [derive_due_date, if_neg hne]
      rcases hy : pyParseInt ys with _ | y
      · simp [hy]
      rcases hm : pyParseInt ms with _ | m
      · simp [hy, hm]
      rcases hd : pyParseInt ds with _ | d
      · simp [hy, hm, hd]
      rcases hdur : pyFloatTruncInt durs with _ | dur
      · simp [hy, hm, hd, hdur]
      rcases hcase with h | h | h | h | h | h | h | h | h
      · exact absurd (Or.inl h) hne
      · exact absurd (Or.inr (Or.inl h)) hne
      · exact absurd (Or.inr (Or.inr (Or.inl h))) hne
      · exact absurd (Or.inr (Or.inr (Or.inr h))) hne
      · rw [h] at hy; exact absurd hy (by simp)
      · rw [h] at hm; exact absurd hm (by simp)
      · rw [h] at hd; exact absurd hd (by simp)
      · rw [h] at hdur; exact absurd hdur (by simp)
      · have hv := h y m d hy hm hd
        simp [hy, hm, hd, hdur, hv]
  · decide

/-- C4 witness: the concrete start (2025, 1, 20) with duration 114 produces
a valid date at ordinal distance 114 whose ISO form the function returns. -/
theorem c4_due_date_calendar_witness :
    ∃ r : DateT, validDate r = true ∧
      (toOrd ((2025 : Int).toNat, (1 : Int).toNat, (20 : Int).toNat) : Int) + 114 = (toOrd r : Int) ∧
      derive_due_date "2025" "1" "20" "114" = isoDate r := by
  obtain ⟨r, h1, h2, h3⟩ := c4_due_date_calendar.1 "2025" "1" "20" "114" 2025 1 20 114
    (by decide) (by decide) (by decide) (by decide) (by decide) (by decide) (by decide)
  exact ⟨r, h1, h2.symm, h3⟩

/-! ## Record-builder lemmas -/

theorem buildAnimalRow_keys (pid cs st sp : String) (nm im jm : List (String × String))
    (a : XmlNode) : (buildAnimalRow pid cs st sp nm im jm a).map Prod.fst = ANIMAL_COLUMNS := rfl

theorem buildFetusRow_keys (row : Row) (cs st sp : String) (i : Nat) (f : XmlNode) :
    (buildFetusRow row cs st sp i f).map Prod.fst = FETUS_COLUMNS := rfl

theorem rget_buildAnimalRow_species (pid cs st sp : String) (nm im jm : List (String × String))
    (a : XmlNode) : rget (buildAnimalRow pid cs st sp nm im jm a) "species" = sp := rfl

theorem rget_buildAnimalRow_uid (pid cs st sp : String) (nm im jm : List (String × String))
    (a : XmlNode) :
    rget (buildAnimalRow pid cs st sp nm im jm a) "unique_id" = getAttr (some a) "id" "" := rfl

theorem rget_buildAnimalRow_count (pid cs st sp : String) (nm im jm : List (String × String))
    (a : XmlNode) :
    rget (buildAnimalRow pid cs st sp nm im jm a) "preg_fetus_count" =
      (match child (some a) "pregnancy" with
       | some p => natToStr (fetusNodesOf p).length
       | none => "") := rfl

theorem rget_buildFetusRow_mother (row : Row) (cs st sp : String) (i : Nat) (f : XmlNode) :
    rget (buildFetusRow row cs st sp i f) "mother_unique_id" = rget row "unique_id" := rfl

/-- The composite shape every successful `processAnimal` result takes. -/
theorem processAnimal_some_elim (plc : XmlNode) (sf pid cs st : String)
    (nm im jm : List (String × String)) (fl : Option (List String)) (ff : Option String)
    (a : XmlNode) (pr : Row × List Row)
    (h : processAnimal plc sf pid cs st nm im jm fl ff a = some pr) :
    pr = (buildAnimalRow pid cs st (infer_species plc sf a) nm im jm a,
      match child (some a) "pregnancy" with
      | some p => (fetusNodesOf p).enum.map
          (fun e => buildFetusRow (buildAnimalRow pid cs st (infer_species plc sf a) nm im jm a)
            cs st (infer_species plc sf a) (e.1 + 1) e.2)
      | none => []) := by
  simp only [processAnimal] at h
  split at h
  · exact absurd h (by simp)
  · split at h
    · exact absurd h (by simp)
    · exact (Option.some.inj h).symm

/-- Every pair of the traversal is a successful `processAnimal` result. -/
theorem mem_parsePairs_elim (nm im jm : List (String × String)) (fl : Option (List String))
    (ff : Option String) (root : XmlNode) (pr : Row × List Row)
    (h : pr ∈ parsePairs nm im jm fl ff root) :
    ∃ plc sf pid cs st a, processAnimal plc sf pid cs st nm im jm fl ff a = some pr := by
  rw [parsePairs] at h
  obtain ⟨plc, _hplc, h2⟩ := List.mem_flatMap.mp h
  simp only [processPlaceable] at h2
  rcases hha : child (some plc) "husbandryAnimals" with _ | ha
  · simp [hha] at h2
  simp only [hha] at h2
  rcases hcl : child (some ha) "clusters" with _ | cl
  · simp [hcl] at h2
  simp only [hcl] at h2
  obtain ⟨a, _ha2, hpa⟩ := List.mem_filterMap.mp h2
  exact ⟨plc, _, _, _, _, a, hpa⟩

/-- Mother-id and count facts for every traversal pair. -/
theorem parsePairs_fetus_facts (nm im jm : List (String × String)) (fl : Option (List String))
    (ff : Option String) (root : XmlNode) (pr : Row × List Row)
    (h : pr ∈ parsePairs nm im jm fl ff root) :
    (∀ fr ∈ pr.2, rget fr "mother_unique_id" = rget pr.1 "unique_id") ∧
      (strToNat (rget pr.1 "preg_fetus_count")).getD 0 = pr.2.length := by
  obtain ⟨plc, sf, pid, cs, st, a, hpa⟩ := mem_parsePairs_elim nm im jm fl ff root pr h
  have hshape := processAnimal_some_elim plc sf pid cs st nm im jm fl ff a pr hpa
  subst hshape
  constructor
  · intro fr hfr
    rcases hpreg : child (some a) "pregnancy" with _ | p
    · rw [hpreg] at hfr; simp at hfr
    · rw [hpreg] at hfr
      simp only [List.mem_map] at hfr
      obtain ⟨e, _he, hfe⟩ := hfr
      rw [← hfe, rget_buildFetusRow_mother]
  · rcases hpreg : child (some a) "pregnancy" with _ | p
    · simp only [rget_buildAnimalRow_count, hpreg]
      rfl
    · simp only [rget_buildAnimalRow_count, hpreg, strToNat_natToStr, Option.getD_some,
        List.length_map, List.enum_length]

theorem length_filter_const {α : Type} (xs : List α) (p : α → Bool) (b : Bool)
    (h : ∀ x ∈ xs, p x = b) :
    (xs.filter p).length = if b then xs.length else 0 := by
  induction xs with
  | nil => cases b <;> rfl
  | cons x t ih =>
    have hx : p x = b := h x (by simp)
    have ht := ih (fun y hy => h y (by simp [hy]))
    cases b <;> simp [List.filter_cons, hx, ht]

theorem flatMap_filter_count (l : List (Row × List Row)) (u : String)
    (hm : ∀ pr ∈ l, ∀ fr ∈ pr.2, rget fr "mother_unique_id" = rget pr.1 "unique_id") :
    ((l.flatMap Prod.snd).filter (fun fr => rget fr "mother_unique_id" == u)).length =
      (l.map (fun pr => if rget pr.1 "unique_id" = u then pr.2.length else 0)).sum := by
  induction l with
  | nil => rfl
  | cons pr t ih =>
    have hhd : ∀ fr ∈ pr.2, rget fr "mother_unique_id" = rget pr.1 "unique_id" :=
      hm pr (by simp)
    have ht := ih (fun q hq => hm q (by simp [hq]))
    simp only [List.flatMap_cons, List.filter_append, List.length_append, List.map_cons,
      List.sum_cons, ht]
    by_cases hb : rget pr.1 "unique_id" = u
    · rw [length_filter_const pr.2 _ true
        (fun fr hfr => by rw [hhd fr hfr, hb]; exact beq_self_eq_true u)]
      simp [hb]
    · rw [length_filter_const pr.2 _ false
        (fun fr hfr => by rw [hhd fr hfr]; exact beq_eq_false_iff_ne.mpr hb)]
      simp [hb]

theorem sum_if_zero (t : List (Row × List Row)) (u : String)
    (h : ∀ pr ∈ t, rget pr.1 "unique_id" ≠ u) :
    (t.map (fun pr => if rget pr.1 "unique_id" = u then pr.2.length else 0)).sum = 0 := by
  induction t with
  | nil => rfl
  | cons pr t ih =>
    have hpr : ¬(rget pr.1 "unique_id" = u) := h pr (by simp)
    have ht := ih (fun q hq => h q (by simp [hq]))
    simp [hpr, ht]

theorem sum_if_unique (l : List (Row × List Row)) (u : String)
    (hnd : (l.map (fun pr => rget pr.1 "unique_id")).Nodup)
    (pr0 : Row × List Row) (h0 : pr0 ∈ l) (hu : rget pr0.1 "unique_id" = u) :
    (l.map (fun pr => if rget pr.1 "unique_id" = u then pr.2.length else 0)).sum =
      pr0.2.length := by
  induction l with
  | nil => simp at h0
  | cons pr t ih =>
    simp only [List.map_cons, List.nodup_cons] at hnd
    rcases List.mem_cons.mp h0 with h0h | h0t
    · subst h0h
      have hzero :
          (t.map (fun q => if rget q.1 "unique_id" = u then q.2.length else 0)).sum = 0 := by
        apply sum_if_zero
        intro q hq hqe
        exact hnd.1 (List.mem_map.mpr ⟨q, hq, by rw [hqe]; exact hu.symm⟩)
      simp [hu, hzero]
    · have hne : rget pr.1 "unique_id" ≠ u := by
        intro he
        exact hnd.1 (List.mem_map.mpr ⟨pr0, h0t, by rw [hu]; exact he.symm⟩)
      have := ih hnd.2 h0t
      simp [hne, this]

theorem filterMap_bind_filter {α β : Type} (f g : α → Option β) (p : β → Bool)
    (h : ∀ a, g a = (f a).bind (fun b => if p b then some b else none)) (l : List α) :
    l.filterMap g = (l.filterMap f).filter p := by
  induction l with
  | nil => rfl
  | cons a t ih =>
    rw [List.filterMap_cons, List.filterMap_cons, h a]
    cases hfa : f a with
    | none => simpa using ih
    | some b =>
      by_cases hp : p b = true
      · simp [hp, List.filter_cons, ih]
      · simp [hp, List.filter_cons, ih]

theorem flatMap_filter_right {α β : Type} (l : List α) (h : α → List β) (q : β → Bool) :
    (l.flatMap (fun x => (h x).filter q)) = (l.flatMap h).filter q := by
  induction l with
  | nil => rfl
  | cons a t ih => simp [List.flatMap_cons, List.filter_append, ih]

theorem map_fst_filter (l : List (Row × List Row)) (p : Row → Bool) :
    (l.filter (fun pr => p pr.1)).map Prod.fst = (l.map Prod.fst).filter p := by
  induction l with
  | nil => rfl
  | cons pr t ih =>
    by_cases hp : p pr.1 = true <;> simp [List.filter_cons, hp, ih]

/-- The species filter commutes with `processAnimal`: filtering is exactly an
`Option`-level filter by `speciesPass` on the unfiltered result. -/
theorem processAnimal_filter (plc : XmlNode) (sf pid cs st : String)
    (nm im jm : List (String × String)) (fl : List String) (ff : Option String) (a : XmlNode) :
    processAnimal plc sf pid cs st nm im jm (some fl) ff a =
      (processAnimal plc sf pid cs st nm im jm none ff a).bind
        (fun pr => if speciesPass fl pr.1 then some pr else none) := by
  by_cases hfs : farmSkip ff a = true
  · by_cases hsk : speciesSkip (some fl) (infer_species plc sf a) = true <;>
      simp [processAnimal, hfs, hsk]
  · have hskn : speciesSkip none (infer_species plc sf a) = false := rfl
    by_cases hfl : fl = []
    · subst hfl
      simp [processAnimal, speciesSkip, hfs, speciesPass, List.isEmpty]
    · by_cases hsp : infer_species plc sf a = ""
      · simp [processAnimal, speciesSkip, hfs, hfl, hsp, speciesPass,
          rget_buildAnimalRow_species]
      · by_cases hct : fl.contains (infer_species plc sf a) = true
        · simp [processAnimal, speciesSkip, hfs, hfl, hsp, hct, speciesPass,
            rget_buildAnimalRow_species, List.isEmpty_iff]
        · simp [processAnimal, speciesSkip, hfs, hfl, hsp, hct, speciesPass,
            rget_buildAnimalRow_species, List.isEmpty_iff]

/-- The species filter commutes with `processPlaceable`. -/
theorem processPlaceable_filter (nm im jm : List (String × String)) (fl : List String)
    (ff : Option String) (plc : XmlNode) :
    processPlaceable nm im jm (some fl) ff plc =
      (processPlaceable nm im jm none ff plc).filter (fun pr => speciesPass fl pr.1) := by
  simp only [processPlaceable]
  rcases hha : child (some plc) "husbandryAnimals" with _ | ha
  · simp [hha]
  simp only [hha]
  rcases hcl : child (some ha) "clusters" with _ | cl
  · simp [hcl]
  simp only [hcl]
  exact filterMap_bind_filter _ _ _
    (fun a => processAnimal_filter plc _ _ _ _ nm im jm fl ff a) _

/-- The species filter commutes with the whole record builder. -/
theorem parse_species_filter (root : XmlNode) (nm im jm : List (String × String))
    (fl : List String) (ff : Option String) :
    (parse_placeables root nm im jm (some fl) ff).1 =
      ((parse_placeables root nm im jm none ff).1).filter (speciesPass fl) := by
  have key : ∀ ps : List XmlNode,
      ps.flatMap (processPlaceable nm im jm (some fl) ff) =
        (ps.flatMap (processPlaceable nm im jm none ff)).filter
          (fun pr => speciesPass fl pr.1) := by
    intro ps
    induction ps with
    | nil => rfl
    | cons p t ih =>
      rw [List.flatMap_cons, List.flatMap_cons, List.filter_append, ih,
        processPlaceable_filter]
  simp only [parse_placeables, parsePairs]
  rw [key, map_fst_filter]

/-! ## Claim theorems C6, C7, C9 -/

set_option maxRecDepth 10000 in
set_option maxHeartbeats 1000000 in
/-- C6 counterexample: with two animals sharing the `id` value `"A"`, each
pregnant with one fetus, every animal row stores fetus count 1 while two
fetus records carry that `mother_unique_id`. -/
theorem c6_counterexample :
    ∃ r ∈ (parse_placeables docC6dup [] [] [] none none).1,
      (strToNat (rget r "preg_fetus_count")).getD 0 ≠
        ((parse_placeables docC6dup [] [] [] none none).2.filter
          (fun fr => rget fr "mother_unique_id" == rget r "unique_id")).length := by
  decide

/-- C6 (amended): when the produced animal rows carry pairwise-distinct
`unique_id` values, each row's stored fetus count equals the number of fetus
records whose `mother_unique_id` equals that row's `unique_id`. -/
theorem c6_fetus_count_matches (root : XmlNode) (nm im jm : List (String × String))
    (fl : Option (List String)) (ff : Option String)
    (hnd : ((parse_placeables root nm im jm fl ff).1.map (fun r => rget r "unique_id")).Nodup) :
    ∀ r ∈ (parse_placeables root nm im jm fl ff).1,
      (strToNat (rget r "preg_fetus_count")).getD 0 =
        ((parse_placeables root nm im jm fl ff).2.filter
          (fun fr => rget fr "mother_unique_id" == rget r "unique_id")).length := by
  intro r hr
  simp only [parse_placeables] at hr hnd ⊢
  obtain ⟨pr0, hpr0, hfst⟩ := List.mem_map.mp hr
  have hcnt := (parsePairs_fetus_facts nm im jm fl ff root pr0 hpr0).2
  rw [flatMap_filter_count _ _
    (fun q hq => (parsePairs_fetus_facts nm im jm fl ff root q hq).1)]
  rw [List.map_map] at hnd
  rw [sum_if_unique _ _ hnd pr0 hpr0 (by rw [hfst]), ← hfst, hcnt]

set_option maxRecDepth 10000 in
set_option maxHeartbeats 1000000 in
/-- C6 witness: on a document with distinct ids, the first produced row's
stored count matches the number of its fetus records. -/
theorem c6_fetus_count_matches_witness :
    (strToNat (rget ((parse_placeables docC6w [] [] [] none none).1.headI)
        "preg_fetus_count")).getD 0 =
      ((parse_placeables docC6w [] [] [] none none).2.filter
        (fun fr => rget fr "mother_unique_id" ==
          rget ((parse_placeables docC6w [] [] [] none none).1.headI) "unique_id")).length :=
  c6_fetus_count_matches docC6w [] [] [] none none (by decide) _ (by decide)

/-- C9: every produced animal row has exactly the declared animal columns as
its keys, in order, and every fetus row exactly the declared fetus columns —
fields without a source are present with the empty-string sentinel. -/
theorem c9_rows_structurally_complete (root : XmlNode) (nm im jm : List (String × String))
    (fl : Option (List String)) (ff : Option String) :
    (∀ r ∈ (parse_placeables root nm im jm fl ff).1, r.map Prod.fst = ANIMAL_COLUMNS) ∧
      ∀ fr ∈ (parse_placeables root nm im jm fl ff).2, fr.map Prod.fst = FETUS_COLUMNS := by
  constructor
  · intro r hr
    simp only [parse_placeables] at hr
    obtain ⟨pr, hpr, hfst⟩ := List.mem_map.mp hr
    obtain ⟨plc, sf, pid, cs, st, a, hpa⟩ := mem_parsePairs_elim nm im jm fl ff root pr hpr
    have hshape := processAnimal_some_elim plc sf pid cs st nm im jm fl ff a pr hpa
    rw [← hfst, hshape]
    exact buildAnimalRow_keys _ _ _ _ _ _ _ _
  · intro fr hfr
    simp only [parse_placeables] at hfr
    obtain ⟨pr, hpr, hsnd⟩ := List.mem_flatMap.mp hfr
    obtain ⟨plc, sf, pid, cs, st, a, hpa⟩ := mem_parsePairs_elim nm im jm fl ff root pr hpr
    have hshape := processAnimal_some_elim plc sf pid cs st nm im jm fl ff a pr hpa
    rw [hshape] at hsnd
    rcases hpreg : child (some a) "pregnancy" with _ | p
    · rw [hpreg] at hsnd; simp at hsnd
    · rw [hpreg] at hsnd
      obtain ⟨e, _he, hfe⟩ := List.mem_map.mp hsnd
      rw [← hfe]
      exact buildFetusRow_keys _ _ _ _ _ _

set_option maxRecDepth 10000 in
set_option maxHeartbeats 1000000 in
/-- C9 witness: the first animal row and the first fetus row of a concrete
document carry exactly the declared columns. -/
theorem c9_rows_structurally_complete_witness :
    ((parse_placeables docC9w [] [] [] none none).1.headI).map Prod.fst = ANIMAL_COLUMNS ∧
      ((parse_placeables docC9w [] [] [] none none).2.headI).map Prod.fst = FETUS_COLUMNS :=
  ⟨(c9_rows_structurally_complete docC9w [] [] [] none none).1 _ (by decide),
   (c9_rows_structurally_complete docC9w [] [] [] none none).2 _ (by decide)⟩

/-- C7: with an active species filter the record builder keeps exactly the
rows whose inferred species is empty or in the filter list (an empty
normalised filter list keeps everything, matching Python truthiness), and
filtering by `"cows,sheep"` excludes every row whose inferred species is
`"pigs"`. -/
theorem c7_species_filter_roundtrip (root : XmlNode) (nm im jm : List (String × String))
    (fl : List String) (ff : Option String) :
    ((parse_placeables root nm im jm (some fl) ff).1 =
      ((parse_placeables root nm im jm none ff).1).filter (speciesPass fl)) ∧
      ∀ r ∈ (parse_placeables root nm im jm
          (some (normalize_species_list "cows,sheep")) ff).1,
        rget r "species" ≠ "pigs" := by
  refine ⟨parse_species_filter root nm im jm fl ff, ?_⟩
  intro r hr
  rw [parse_species_filter] at hr
  have hp := (List.mem_filter.mp hr).2
  intro hpigs
  simp only [speciesPass] at hp
  rw [hpigs] at hp
  exact absurd hp (by decide)

set_option maxRecDepth 10000 in
set_option maxHeartbeats 1000000 in
/-- C7 witness: on a concrete two-shed document, filtering by `"cows"`
equals filtering the unfiltered rows, and the surviving row of a
`"cows,sheep"` filter is not a pig. -/
theorem c7_species_filter_roundtrip_witness :
    ((parse_placeables docC7w [] [] [] (some ["cows"]) none).1 =
      ((parse_placeables docC7w [] [] [] none none).1).filter (speciesPass ["cows"])) ∧
      rget ((parse_placeables docC7w [] [] []
          (some (normalize_species_list "cows,sheep")) none).1.headI) "species" ≠ "pigs" :=
  ⟨(c7_species_filter_roundtrip docC7w [] [] [] ["cows"] none).1,
   (c7_species_filter_roundtrip docC7w [] [] [] ["cows"] none).2 _ (by decide)⟩

/-! ## Summary lemmas -/

theorem rget_summaryRow_count (g : GKey × List Row) :
    rget (summaryRow g) "animals_count" = natToStr g.2.length := rfl

theorem groupInsert_sumLen (gs : List (GKey × List Row)) (k : GKey) (r : Row) :
    ((groupInsert gs k r).map (fun g => g.2.length)).sum =
      (gs.map (fun g => g.2.length)).sum + 1 := by
  induction gs with
  | nil => rfl
  | cons g t ih =>
    by_cases h : g.1 = k
    · simp [groupInsert, h]
      omega
    · simp [groupInsert, h, ih]
      omega

theorem groupRows_sumLen (rows : List Row) :
    ((groupRows rows).map (fun g => g.2.length)).sum = rows.length := by
  have key : ∀ (l : List Row) (init : List (GKey × List Row)),
      ((l.foldl (fun gs r => groupInsert gs (keyOf r) r) init).map (fun g => g.2.length)).sum =
        (init.map (fun g => g.2.length)).sum + l.length := by
    intro l
    induction l with
    | nil => intro init; simp
    | cons r t ih =>
      intro init
      rw [List.foldl_cons, ih, groupInsert_sumLen]
      simp
      omega
  rw [groupRows, key]
  simp

theorem groupInsert_keyInv (gs : List (GKey × List Row)) (k : GKey) (r : Row)
    (hk : keyOf r = k) (h : ∀ g ∈ gs, ∀ x ∈ g.2, keyOf x = g.1) :
    ∀ g ∈ groupInsert gs k r, ∀ x ∈ g.2, keyOf x = g.1 := by
  induction gs with
  | nil =>
    intro g hg x hx
    simp [groupInsert] at hg
    subst hg
    simp at hx
    subst hx
    exact hk
  | cons g0 t ih =>
    obtain ⟨k2, rs⟩ := g0
    intro g hg x hx
    by_cases he : k2 = k
    · rw [groupInsert, if_pos he] at hg
      rcases List.mem_cons.mp hg with hgh | hgt
      · subst hgh
        simp only at hx
        rcases List.mem_append.mp hx with hxo | hxr
        · exact h (k2, rs) (by simp) x hxo
        · simp at hxr
          subst hxr
          exact hk.trans he.symm
      · exact h g (by simp [hgt]) x hx
    · rw [groupInsert, if_neg he] at hg
      rcases List.mem_cons.mp hg with hgh | hgt
      · subst hgh
        exact h (k2, rs) (by simp) x hx
      · exact ih (fun q hq => h q (by simp [hq])) g hgt x hx

theorem groupInsert_keys_not_mem (gs : List (GKey × List Row)) (k k0 : GKey) (r : Row)
    (hnot : k0 ∉ gs.map Prod.fst) (hne : k0 ≠ k) :
    k0 ∉ (groupInsert gs k r).map Prod.fst := by
  induction gs with
  | nil =>
    intro hmem
    simp [groupInsert] at hmem
    exact hne hmem
  | cons g1 t ih =>
    obtain ⟨k1, rs⟩ := g1
    intro hmem
    by_cases he : k1 = k
    · rw [groupInsert, if_pos he] at hmem
      exact hnot (by simpa using hmem)
    · rw [groupInsert, if_neg he] at hmem
      simp only [List.map_cons, List.mem_cons] at hmem
      rcases hmem with hh | ht
      · exact hnot (by simp [hh])
      · exact ih (fun hc => hnot (by simp [hc])) ht

theorem groupInsert_keysNodup (gs : List (GKey × List Row)) (k : GKey) (r : Row)
    (h : (gs.map Prod.fst).Nodup) :
    ((groupInsert gs k r).map Prod.fst).Nodup := by
  induction gs with
  | nil => simp [groupInsert]
  | cons g0 t ih =>
    obtain ⟨k2, rs⟩ := g0
    simp only [List.map_cons, List.nodup_cons] at h
    by_cases he : k2 = k
    · rw [groupInsert, if_pos he]
      simp only [List.map_cons, List.nodup_cons]
      exact ⟨h.1, h.2⟩
    · rw [groupInsert, if_neg he]
      simp only [List.map_cons, List.nodup_cons]
      exact ⟨groupInsert_keys_not_mem t k k2 r h.1 he, ih h.2⟩

theorem groupRows_inv (rows : List Row) :
    ((groupRows rows).map Prod.fst).Nodup ∧
      ∀ g ∈ groupRows rows, ∀ x ∈ g.2, keyOf x = g.1 := by
  have key : ∀ (l : List Row) (init : List (GKey × List Row)),
      (init.map Prod.fst).Nodup → (∀ g ∈ init, ∀ x ∈ g.2, keyOf x = g.1) →
      ((l.foldl (fun gs r => groupInsert gs (keyOf r) r) init).map Prod.fst).Nodup ∧
        ∀ g ∈ l.foldl (fun gs r => groupInsert gs (keyOf r) r) init, ∀ x ∈ g.2, keyOf x = g.1 := by
    intro l
    induction l with
    | nil => intro init h1 h2; exact ⟨h1, h2⟩
    | cons r t ih =>
      intro init h1 h2
      rw [List.foldl_cons]
      exact ih _ (groupInsert_keysNodup init (keyOf r) r h1)
        (groupInsert_keyInv init (keyOf r) r rfl h2)
  exact key rows [] (by simp) (by simp)

theorem groupInsert_mem_preserve (gs : List (GKey × List Row)) (k : GKey) (x r : Row)
    (h : ∃ g ∈ gs, x ∈ g.2) : ∃ g ∈ groupInsert gs k r, x ∈ g.2 := by
  induction gs with
  | nil => simp at h
  | cons g0 t ih =>
    obtain ⟨k2, rs⟩ := g0
    obtain ⟨g, hg, hx⟩ := h
    by_cases he : k2 = k
    · rw [groupInsert, if_pos he]
      rcases List.mem_cons.mp hg with hgh | hgt
      · subst hgh
        exact ⟨(k2, rs ++ [r]), by simp, by simp at hx ⊢; exact Or.inl hx⟩
      · exact ⟨g, by simp [hgt], hx⟩
    · rw [groupInsert, if_neg he]
      rcases List.mem_cons.mp hg with hgh | hgt
      · exact ⟨(k2, rs), by simp, by rw [← hgh]; exact hx⟩
      · obtain ⟨g2, hg2, hx2⟩ := ih ⟨g, hgt, hx⟩
        exact ⟨g2, by simp [hg2], hx2⟩

theorem groupInsert_mem_self (gs : List (GKey × List Row)) (r : Row) :
    ∃ g ∈ groupInsert gs (keyOf r) r, r ∈ g.2 := by
  induction gs with
  | nil => exact ⟨(keyOf r, [r]), by simp [groupInsert], by simp⟩
  | cons g0 t ih =>
    obtain ⟨k2, rs⟩ := g0
    by_cases he : k2 = keyOf r
    · rw [groupInsert, if_pos he]
      exact ⟨(k2, rs ++ [r]), by simp, by simp⟩
    · rw [groupInsert, if_neg he]
      obtain ⟨g, hg, hx⟩ := ih
      exact ⟨g, by simp [hg], hx⟩

theorem groupRows_mem (rows : List Row) (r : Row) (hr : r ∈ rows) :
    ∃ g ∈ groupRows rows, r ∈ g.2 := by
  have key : ∀ (l : List Row) (init : List (GKey × List Row)),
      (r ∈ l ∨ ∃ g ∈ init, r ∈ g.2) →
      ∃ g ∈ l.foldl (fun gs x => groupInsert gs (keyOf x) x) init, r ∈ g.2 := by
    intro l
    induction l with
    | nil =>
      intro init h
      rcases h with h | h
      · simp at h
      · exact h
    | cons x t ih =>
      intro init h
      rw [List.foldl_cons]
      rcases h with h | h
      · rcases List.mem_cons.mp h with hrx | hrt
        · subst hrx
          exact ih _ (Or.inr (groupInsert_mem_self init r))
        · exact ih _ (Or.inl hrt)
      · exact ih _ (Or.inr (groupInsert_mem_preserve init (keyOf x) r x h))
  exact key rows [] (Or.inl hr)

theorem nodup_keys_eq (l : List (GKey × List Row)) (h : (l.map Prod.fst).Nodup)
    (g g2 : GKey × List Row) (hg : g ∈ l) (hg2 : g2 ∈ l) (he : g.1 = g2.1) : g = g2 := by
  induction l with
  | nil => simp at hg
  | cons g0 t ih =>
    simp only [List.map_cons, List.nodup_cons] at h
    rcases List.mem_cons.mp hg with hh | ht <;> rcases List.mem_cons.mp hg2 with hh2 | ht2
    · rw [hh, hh2]
    · exfalso
      apply h.1
      rw [← hh, he]
      exact List.mem_map.mpr ⟨g2, ht2, rfl⟩
    · exfalso
      apply h.1
      rw [← hh2, ← he]
      exact List.mem_map.mpr ⟨g, ht, rfl⟩
    · exact ih h.2 ht ht2

theorem insertRow_perm (x : Row) (l : List Row) : (insertRow x l).Perm (x :: l) := by
  induction l with
  | nil => exact List.Perm.refl _
  | cons y t ih =>
    rw [insertRow]
    by_cases h : sortLe x y = true
    · rw [if_pos h]
    · rw [if_neg h]
      exact (List.Perm.cons y ih).trans (List.Perm.swap x y t)

theorem sortRowsAux_perm (l : List Row) : (sortRowsAux l).Perm l := by
  induction l with
  | nil => exact List.Perm.refl _
  | cons x t ih =>
    rw [sortRowsAux]
    exact (insertRow_perm _ _).trans (List.Perm.cons x ih)

/-! ## Claim theorems C5, C10 -/

/-- C5: every row of the summary comes from one group of the grouping, and
each mean field is the two-decimal rendering of the arithmetic mean of only
the group members' values that parse as numbers (empty and unparseable
values are excluded, not zero); a field with no parseable values renders
empty, and `avg_age_years` is the mean of the same filtered age list divided
by 12, not a division of the rounded displayed month mean. -/
theorem c5_summary_means (rows : List Row) (srow : Row) (hs : srow ∈ summarize rows) :
    ∃ k items, (k, items) ∈ groupRows rows ∧ srow = summaryRow (k, items) ∧
      (∀ pair ∈ [("avg_age_months", "age"), ("avg_health", "animal_health"),
          ("avg_gen_metabolism", "animal_gen_metabolism"),
          ("avg_gen_quality", "animal_gen_quality"),
          ("avg_gen_health", "animal_gen_health"),
          ("avg_gen_fertility", "animal_gen_fertility"),
          ("avg_gen_productivity", "animal_gen_productivity")],
        (fieldVals items pair.2 = [] → rget srow pair.1 = "") ∧
          (fieldVals items pair.2 ≠ [] →
            rget srow pair.1 = fmtFloat2 (pfDivNat (pfSum (fieldVals items pair.2))
              (fieldVals items pair.2).length))) ∧
      (fieldVals items "age" = [] → rget srow "avg_age_years" = "") ∧
      (fieldVals items "age" ≠ [] →
        rget srow "avg_age_years" = fmtFloat2 (pfDivNat
          (pfDivNat (pfSum (fieldVals items "age")) (fieldVals items "age").length) 12)) := by
  have hmem : srow ∈ (groupRows rows).map summaryRow := by
    rw [summarize] at hs
    exact (sortRowsAux_perm _).mem_iff.mp hs
  obtain ⟨g, hg, hsrow⟩ := List.mem_map.mp hmem
  refine ⟨g.1, g.2, by simpa using hg, hsrow.symm, ?_, ?_, ?_⟩
  · intro pair hp
    simp only [List.mem_cons, List.not_mem_nil, or_false] at hp
    rcases hp with rfl | rfl | rfl | rfl | rfl | rfl | rfl <;>
      constructor <;> intro h <;> rw [← hsrow] <;>
      simp only [summaryRow, rget, alookup] <;>
      simp [avgOpt, fmt_num, h]
  · intro h
    rw [← hsrow]
    simp only [summaryRow, rget, alookup]
    simp [avgOpt, fmt_num, h]
  · intro h
    rw [← hsrow]
    simp only [summaryRow, rget, alookup]
    simp [avgOpt, fmt_num, h]

set_option maxRecDepth 10000 in
/-- C5 witness: on one concrete group with a partly-unparseable age column,
the summary row renders the means of only the parseable values. -/
theorem c5_summary_means_witness :
    ∃ k items, (k, items) ∈ groupRows rowsC5 ∧
      (summarize rowsC5).headI = summaryRow (k, items) ∧
      (∀ pair ∈ [("avg_age_months", "age"), ("avg_health", "animal_health"),
          ("avg_gen_metabolism", "animal_gen_metabolism"),
          ("avg_gen_quality", "animal_gen_quality"),
          ("avg_gen_health", "animal_gen_health"),
          ("avg_gen_fertility", "animal_gen_fertility"),
          ("avg_gen_productivity", "animal_gen_productivity")],
        (fieldVals items pair.2 = [] → rget ((summarize rowsC5).headI) pair.1 = "") ∧
          (fieldVals items pair.2 ≠ [] →
            rget ((summarize rowsC5).headI) pair.1 =
              fmtFloat2 (pfDivNat (pfSum (fieldVals items pair.2))
                (fieldVals items pair.2).length))) ∧
      (fieldVals items "age" = [] → rget ((summarize rowsC5).headI) "avg_age_years" = "") ∧
      (fieldVals items "age" ≠ [] →
        rget ((summarize rowsC5).headI) "avg_age_years" = fmtFloat2 (pfDivNat
          (pfDivNat (pfSum (fieldVals items "age")) (fieldVals items "age").length) 12)) :=
  c5_summary_means rowsC5 ((summarize rowsC5).headI) (by decide)

/-- C10: the summary partitions the animal rows — each row lies in exactly
one group, the one keyed by its own `(current_shed, shed_type, species,
breed)` tuple — so the summary rows' `animals_count` values sum to the
number of animal rows. -/
theorem c10_summary_partition (rows : List Row) :
    ((summarize rows).map (fun sr => (strToNat (rget sr "animals_count")).getD 0)).sum =
        rows.length ∧
      ∀ r ∈ rows, ∃ g ∈ groupRows rows, g.1 = keyOf r ∧ r ∈ g.2 ∧
        ∀ g2 ∈ groupRows rows, r ∈ g2.2 → g2 = g := by
  constructor
  · have hperm := (sortRowsAux_perm ((groupRows rows).map summaryRow)).map
      (fun sr => (strToNat (rget sr "animals_count")).getD 0)
    rw [summarize, hperm.sum_eq, List.map_map]
    have : ((fun sr => (strToNat (rget sr "animals_count")).getD 0) ∘ summaryRow) =
        fun g : GKey × List Row => g.2.length := by
      funext g
      simp [Function.comp, rget_summaryRow_count, strToNat_natToStr]
    rw [this, groupRows_sumLen]
  · intro r hr
    obtain ⟨hnd, hinv⟩ := groupRows_inv rows
    obtain ⟨g, hg, hx⟩ := groupRows_mem rows r hr
    refine ⟨g, hg, (hinv g hg r hx).symm, hx, ?_⟩
    intro g2 hg2 hx2
    exact nodup_keys_eq _ hnd g2 g hg2 hg ((hinv g2 hg2 r hx2).symm.trans (hinv g hg r hx))

set_option maxRecDepth 10000 in
/-- C10 witness: on three concrete rows over two keys the counts sum to 3
and the first row lies in exactly one group. -/
theorem c10_summary_partition_witness :
    ((summarize rowsC10).map (fun sr => (strToNat (rget sr "animals_count")).getD 0)).sum =
        rowsC10.length ∧
      ∃ g ∈ groupRows rowsC10, g.1 = keyOf rowsC10.headI ∧ rowsC10.headI ∈ g.2 ∧
        ∀ g2 ∈ groupRows rowsC10, rowsC10.headI ∈ g2.2 → g2 = g :=
  ⟨(c10_summary_partition rowsC10).1,
   (c10_summary_partition rowsC10).2 _ (by decide)⟩

end Livestock
